import Mathlib

/-!
# SIKTEC_SPI: hardware / bit-banged SPI wrapper

A shallow embedding of `src/src/SIKTEC_SPI.cpp` (with `SIKTEC_SPI.h`).

* Bytes (`uint8_t`) are natural numbers below 256; every narrowing to
  `uint8_t` made by the source is written `% 256`.
* A buffer pointer is a function from the index to the byte stored there.
* The platform (`pinMode`, `digitalWrite`, `digitalRead`,
  `delayMicroseconds`, the `SPIClass` peripheral) is outside the repository:
  every call of it is recorded, in order, in a trace of events, and the two
  calls that return data (`digitalRead`, the peripheral transfer) take their
  answer from a `Platform` that sees everything that happened so far.
* The hardware branch of `transfer` differs by preprocessor; the `Platform`
  says which build is compiled.
* Integer division by zero has no defined result and is a `Fault`.
-/

namespace SIKTEC

/-! ## Constants of the platform headers -/

/-- Bit order of the header, `SIKSPI_BitOrder` (`BitOrder` in the .cpp file). -/
inductive SIKSPI_BitOrder where
  | SIKSPI_BITORDER_MSBFIRST
  | SIKSPI_BITORDER_LSBFIRST
  deriving DecidableEq, Repr

open SIKSPI_BitOrder

/-- Modelled from the spec: the `SPI_MODE0` constant of the platform header
`SPI.h`, which is not part of the repository; the data mode is one of 0, 1, 2, 3. -/
def SPI_MODE0 : Nat := 0

/-- Modelled from the spec: the `SPI_MODE1` constant of `SPI.h`. -/
def SPI_MODE1 : Nat := 1

/-- Modelled from the spec: the `SPI_MODE2` constant of `SPI.h`. -/
def SPI_MODE2 : Nat := 2

/-- Modelled from the spec: the `SPI_MODE3` constant of `SPI.h`. -/
def SPI_MODE3 : Nat := 3

/-- Modelled from the spec: the constant `LOW` of the platform header
`Arduino.h`, which is not part of the repository: the low binary level. -/
def LOW : Nat := 0

/-- Modelled from the spec: the constant `HIGH` of `Arduino.h`: the high
binary level. -/
def HIGH : Nat := 1

/-- Modelled from the spec: the constant `INPUT` of `Arduino.h`: a pin
configured as input. -/
def INPUT : Nat := 0

/-- Modelled from the spec: the constant `OUTPUT` of `Arduino.h`: a pin
configured as output. -/
def OUTPUT : Nat := 1

/-! ## Events, platform, faults -/

/-- One call into the platform layer, with the value it returned where it
returns one. -/
inductive Event where
  | pinMode (pin : Int) (mode : Nat)
  | digitalWrite (pin : Int) (val : Nat)
  | digitalRead (pin : Int) (level : Bool)
  | delayMicroseconds (us : Nat)
  | spiBegin
  | spiEnd
  | spiBeginTransaction (freq : Nat) (order : SIKSPI_BitOrder) (mode : Nat)
  | spiEndTransaction
  | spiTransfer (sent : List Nat) (received : List Nat)
  deriving DecidableEq, Repr

/-- The builds the hardware branch of `transfer` tells apart by preprocessor
(lines 141-149): `SPARK` defined, `STM32` defined, or neither. -/
inductive Build where
  | SPARK
  | STM32
  | generic
  deriving DecidableEq, Repr

/-- The external collaborators that return data, and the build. `readPin hist
pin` is the level `digitalRead(pin)` finds after the events `hist`; `exchange
hist sent j` is the byte the peripheral receives at position `j` while it
sends `sent`. -/
structure Platform where
  readPin : List Event → Int → Bool
  exchange : List Event → List Nat → Nat → Nat
  build : Build

/-- What can stop the code short of returning. -/
inductive Fault where
  | divisionByZero
  | outOfFuel
  deriving DecidableEq, Repr

/-- The device handle: the private members of `class SIKTEC_SPI` and `begun`.
`_spi` is `true` when the peripheral pointer is non-null (hardware mode); the
heap-allocated settings record holds `_freq`, `_dataOrder`, `_dataMode` again
and is not duplicated. -/
structure SIKTEC_SPI where
  _spi : Bool
  _freq : Nat
  _dataOrder : SIKSPI_BitOrder
  _dataMode : Nat
  _cs : Int
  _sck : Int
  _mosi : Int
  _miso : Int
  _cs_control : Bool
  begun : Bool
  deriving DecidableEq, Repr

/-- First constructor: hardware SPI on peripheral `theSPI` (a non-null pointer). -/
def SIKTEC_SPI.hardware (cspin : Int) (freq : Nat) (dataOrder : SIKSPI_BitOrder)
    (dataMode : Nat) : SIKTEC_SPI :=
  { _cs := cspin, _sck := -1, _mosi := -1, _miso := -1, _spi := true, begun := false,
    _freq := freq, _dataOrder := dataOrder, _dataMode := dataMode, _cs_control := true }

/-- Second constructor: software SPI on explicit pins. -/
def SIKTEC_SPI.software (cspin sckpin misopin mosipin : Int) (freq : Nat)
    (dataOrder : SIKSPI_BitOrder) (dataMode : Nat) : SIKTEC_SPI :=
  { _cs := cspin, _sck := sckpin, _miso := misopin, _mosi := mosipin, _freq := freq,
    _dataOrder := dataOrder, _dataMode := dataMode, begun := false, _spi := false,
    _cs_control := true }

/-! ## begin / end -/

/-- The software branch of `begin` (lines 98-112). -/
def beginSoftware (s : SIKTEC_SPI) (tr : List Event) : List Event :=
  let tr := tr ++ [Event.pinMode s._sck OUTPUT]
  let tr :=
    if s._dataMode = SPI_MODE0 ∨ s._dataMode = SPI_MODE1 then
      tr ++ [Event.digitalWrite s._sck LOW]
    else
      tr ++ [Event.digitalWrite s._sck HIGH]
  let tr :=
    if s._mosi ≠ -1 then
      tr ++ [Event.pinMode s._mosi OUTPUT, Event.digitalWrite s._mosi HIGH]
    else tr
  if s._miso ≠ -1 then tr ++ [Event.pinMode s._miso INPUT] else tr

/-- `SIKTEC_SPI::begin`: the handle afterwards, the trace afterwards, the
value returned. -/
def SIKTEC_SPI.begin (s : SIKTEC_SPI) (tr : List Event) : SIKTEC_SPI × List Event × Bool :=
  let tr := tr ++ [Event.pinMode s._cs OUTPUT, Event.digitalWrite s._cs HIGH]
  let tr := if s._spi then tr ++ [Event.spiBegin] else beginSoftware s tr
  ({ s with begun := true }, tr, true)

/-- `SIKTEC_SPI::end`. -/
def SIKTEC_SPI.end (s : SIKTEC_SPI) (tr : List Event) : List Event × Bool :=
  (if s._spi then tr ++ [Event.spiEnd] else tr, true)

/-- `SIKTEC_SPI::disableCsToggle`. -/
def SIKTEC_SPI.disableCsToggle (s : SIKTEC_SPI) : SIKTEC_SPI :=
  { s with _cs_control := false }

/-- `SIKTEC_SPI::enableCsToggle`. -/
def SIKTEC_SPI.enableCsToggle (s : SIKTEC_SPI) : SIKTEC_SPI :=
  { s with _cs_control := true }

/-! ## The transfer engine -/

/-- One access of the software transfer to the caller's buffer. -/
inductive Access where
  | load (index : Nat)
  | store (index : Nat) (value : Nat)
  deriving DecidableEq, Repr

/-- The variables the software transfer changes while it runs: the locals
`reply` and `lastmosi`, the buffer behind the pointer, the trace, and the log
of buffer accesses. -/
structure Xfer where
  reply : Nat
  lastmosi : Bool
  buffer : Nat → Nat
  trace : List Event
  accesses : List Access

/-- The initial mask, lines 154-159. -/
def startbit (s : SIKTEC_SPI) : Nat :=
  if s._dataOrder = SIKSPI_BITORDER_LSBFIRST then 0x1 else 0x80

/-- The update of the `uint8_t` mask in the header of the inner loop:
`b << 1` or `b >> 1`, stored back into 8 bits. -/
def nextbit (s : SIKTEC_SPI) (b : Nat) : Nat :=
  if s._dataOrder = SIKSPI_BITORDER_LSBFIRST then (b <<< 1) % 256 else (b >>> 1) % 256

/-- The value of `bitdelay_us`, line 162: a 32-bit division, halved, stored in
a `uint8_t`. Dividing by a zero frequency is a fault. -/
def bitdelay (s : SIKTEC_SPI) : Except Fault Nat :=
  if s._freq = 0 then .error Fault.divisionByZero
  else .ok (((1000000 / s._freq) / 2) % 256)

/-- Conversion of an integer to `bool`, as in `towrite = send & b`. -/
def toBool (v : Nat) : Bool := decide (v ≠ 0)

/-- `if (bitdelay_us) delayMicroseconds(bitdelay_us);`. -/
def delayIf (bitdelay_us : Nat) (tr : List Event) : List Event :=
  if bitdelay_us ≠ 0 then tr ++ [Event.delayMicroseconds bitdelay_us] else tr

/-- `if (_miso != -1 && digitalRead(_miso)) reply |= b;`: the pin is read only
when it is set, and the read is recorded. -/
def sampleMiso (s : SIKTEC_SPI) (P : Platform) (b : Nat) (st : Xfer) : Xfer :=
  if s._miso ≠ -1 then
    let level := P.readPin st.trace s._miso
    { st with
      trace := st.trace ++ [Event.digitalRead s._miso level]
      reply := if level then (st.reply ||| b) % 256 else st.reply }
  else st

/-- The body of the inner loop for the mask `b`, lines 172-210, while byte `i`
with value `send` is on its way. -/
def bitBody (s : SIKTEC_SPI) (P : Platform) (bitdelay_us i send b : Nat) (st : Xfer) : Xfer :=
  let st := { st with trace := delayIf bitdelay_us st.trace }
  let st :=
    if s._dataMode = SPI_MODE0 ∨ s._dataMode = SPI_MODE2 then
      let towrite : Bool := toBool (send &&& b)
      let st :=
        if s._mosi ≠ -1 ∧ st.lastmosi ≠ towrite then
          { st with
            trace := st.trace ++ [Event.digitalWrite s._mosi towrite.toNat]
            lastmosi := towrite }
        else st
      let st := { st with trace := st.trace ++ [Event.digitalWrite s._sck HIGH] }
      let st := { st with trace := delayIf bitdelay_us st.trace }
      let st := sampleMiso s P b st
      { st with trace := st.trace ++ [Event.digitalWrite s._sck LOW] }
    else
      let st := { st with trace := st.trace ++ [Event.digitalWrite s._sck HIGH] }
      let st := { st with trace := delayIf bitdelay_us st.trace }
      let st :=
        if s._mosi ≠ -1 then
          { st with trace := st.trace ++ [Event.digitalWrite s._mosi (send &&& b)] }
        else st
      let st := { st with trace := st.trace ++ [Event.digitalWrite s._sck LOW] }
      sampleMiso s P b st
  if s._miso ≠ -1 then
    { st with
      buffer := Function.update st.buffer i st.reply
      accesses := st.accesses ++ [Access.store i st.reply] }
  else st

/-- The inner loop `for (b = ...; b != 0; b = ...)`, from the mask `b` on. The
loop is run on fuel; running out of it is a fault. -/
def bitLoop (s : SIKTEC_SPI) (P : Platform) (bitdelay_us i send : Nat) :
    Nat → Nat → Xfer → Except Fault Xfer
  | fuel, b, st =>
    if b = 0 then .ok st
    else
      match fuel with
      | 0 => .error Fault.outOfFuel
      | fuel + 1 =>
        bitLoop s P bitdelay_us i send fuel (nextbit s b) (bitBody s P bitdelay_us i send b st)

/-- Fuel of the inner loop: its only variable is one `uint8_t` and the next
value depends on nothing else, so a run of more than 256 iterations would
never end. -/
def maskFuel : Nat := 256

/-- The body of the outer loop for byte `i`, lines 167-211. -/
def byteBody (s : SIKTEC_SPI) (P : Platform) (bitdelay_us i : Nat) (st : Xfer) :
    Except Fault Xfer :=
  let send := st.buffer i
  let st := { st with reply := 0, accesses := st.accesses ++ [Access.load i] }
  bitLoop s P bitdelay_us i send maskFuel (startbit s) st

/-- The outer loop `for (i = ...; i < len; i++)` with `n` iterations to go,
the next one at index `i`. -/
def byteLoop (s : SIKTEC_SPI) (P : Platform) (bitdelay_us : Nat) :
    Nat → Nat → Xfer → Except Fault Xfer
  | 0, _, st => .ok st
  | n + 1, i, st =>
    match byteBody s P bitdelay_us i st with
    | .error e => .error e
    | .ok st => byteLoop s P bitdelay_us n (i + 1) st

/-- What `transfer(buffer, len)` leaves behind. -/
structure Transferred where
  buffer : Nat → Nat
  trace : List Event
  accesses : List Access

/-- The loop of the `STM32` build, lines 144-146, with `n` iterations to go,
the next one at index `i`: `_spi->transfer(buffer[i])`, a peripheral transfer
of one byte whose returned byte is not used. -/
def stm32Loop (P : Platform) (buffer : Nat → Nat) : Nat → Nat → List Event → List Event
  | 0, _, tr => tr
  | n + 1, i, tr =>
    stm32Loop P buffer n (i + 1)
      (tr ++ [Event.spiTransfer [buffer i] [P.exchange tr [buffer i] 0 % 256]])

/-- `SIKTEC_SPI::transfer(uint8_t *buffer, size_t len)`, lines 138-214. In
hardware mode the build decides: with `STM32` the bytes go out one by one and
what comes back is dropped, so the buffer is left as it was; with `SPARK`
(`_spi->transfer(buffer, buffer, len, NULL)`) and in the generic build
(`_spi->transfer(buffer, len)`) the peripheral sends the `len` bytes and
stores what it received over them. The peripheral's own accesses to the
buffer are not logged. -/
def SIKTEC_SPI.transfer (s : SIKTEC_SPI) (P : Platform) (buffer : Nat → Nat) (len : Nat)
    (tr : List Event) : Except Fault Transferred :=
  if s._spi then
    if P.build = Build.STM32 then
      .ok { buffer := buffer
            trace := stm32Loop P buffer len 0 tr
            accesses := [] }
    else
      let sent := (List.range len).map buffer
      let received := (List.range len).map (fun j => P.exchange tr sent j % 256)
      .ok { buffer := fun j => if j < len then received.getD j 0 else buffer j
            trace := tr ++ [Event.spiTransfer sent received]
            accesses := [] }
  else
    let lastmosi : Bool := !(toBool (buffer 0 &&& startbit s))
    match bitdelay s with
    | .error e => .error e
    | .ok bitdelay_us =>
      match byteLoop s P bitdelay_us len 0
          { reply := 0, lastmosi := lastmosi, buffer := buffer, trace := tr,
            accesses := [Access.load 0] } with
      | .error e => .error e
      | .ok st => .ok { buffer := st.buffer, trace := st.trace, accesses := st.accesses }

/-- `SIKTEC_SPI::transfer(uint8_t send)`: a one-byte local buffer goes through
`transfer(&data, 1)`; the byte found in it afterwards is returned. -/
def SIKTEC_SPI.transfer1 (s : SIKTEC_SPI) (P : Platform) (send : Nat) (tr : List Event) :
    Except Fault (Nat × List Event) :=
  match s.transfer P (fun _ => send) 1 tr with
  | .error e => .error e
  | .ok r => .ok (r.buffer 0, r.trace)

/-! ## The transaction framer -/

/-- `SIKTEC_SPI::beginTransaction`; `repeated`, `read` and `write_then_read`
spell the same statement out. The settings record is the one the constructor
built from `_freq`, `_dataOrder`, `_dataMode`. -/
def SIKTEC_SPI.beginTransaction (s : SIKTEC_SPI) (tr : List Event) : List Event :=
  if s._spi then tr ++ [Event.spiBeginTransaction s._freq s._dataOrder s._dataMode] else tr

/-- `SIKTEC_SPI::endTransaction`; spelled out in the same three functions. -/
def SIKTEC_SPI.endTransaction (s : SIKTEC_SPI) (tr : List Event) : List Event :=
  if s._spi then tr ++ [Event.spiEndTransaction] else tr

/-- `if (_cs_control) digitalWrite(_cs, val);`. -/
def csToggle (s : SIKTEC_SPI) (val : Nat) (tr : List Event) : List Event :=
  if s._cs_control then tr ++ [Event.digitalWrite s._cs val] else tr

/-- The loop `for (i = ...; i < n; i++) (void)transfer(byte(i));` with `n`
iterations to go, the next one at index `i`. -/
def sendLoop (s : SIKTEC_SPI) (P : Platform) (byte : Nat → Nat) :
    Nat → Nat → List Event → Except Fault (List Event)
  | 0, _, tr => .ok tr
  | n + 1, i, tr =>
    match s.transfer1 P (byte i) tr with
    | .error e => .error e
    | .ok (_, tr) => sendLoop s P byte n (i + 1) tr

/-- The operand `~x` once it is passed as `uint8_t`: the complement of the
promoted `int`, cut to 8 bits. -/
def complement (x : Nat) : Nat := ((-(x : Int) - 1) % 256).toNat

/-- `SIKTEC_SPI::write`, lines 279-306. -/
def SIKTEC_SPI.write (s : SIKTEC_SPI) (P : Platform) (buffer : Nat → Nat) (len : Nat)
    (prefix_buffer : Nat → Nat) (prefix_len : Nat) (invertBuffer : Bool) (tr : List Event) :
    Except Fault (Bool × List Event) :=
  let tr := s.beginTransaction tr
  let tr := csToggle s LOW tr
  let sent : Except Fault (List Event) :=
    if invertBuffer then
      match sendLoop s P (fun i => complement (prefix_buffer i)) prefix_len 0 tr with
      | .error e => .error e
      | .ok tr => sendLoop s P (fun i => complement (buffer i)) len 0 tr
    else
      match sendLoop s P prefix_buffer prefix_len 0 tr with
      | .error e => .error e
      | .ok tr => sendLoop s P buffer len 0 tr
  match sent with
  | .error e => .error e
  | .ok tr =>
    let tr := csToggle s HIGH tr
    let tr := s.endTransaction tr
    .ok (true, tr)

/-- `SIKTEC_SPI::write_and_read`, lines 315-323. -/
def SIKTEC_SPI.write_and_read (s : SIKTEC_SPI) (P : Platform) (write : Nat) (tr : List Event) :
    Except Fault (Nat × List Event) :=
  let tr := csToggle s LOW tr
  match s.transfer1 P write tr with
  | .error e => .error e
  | .ok (returned, tr) =>
    let tr := csToggle s HIGH tr
    .ok (returned, tr)

/-- `SIKTEC_SPI::repeated`, lines 335-356. -/
def SIKTEC_SPI.repeated (s : SIKTEC_SPI) (P : Platform) (value times : Nat)
    (prefix_buffer : Nat → Nat) (prefix_len : Nat) (tr : List Event) :
    Except Fault (Bool × List Event) :=
  let tr := s.beginTransaction tr
  let tr := csToggle s LOW tr
  match sendLoop s P prefix_buffer prefix_len 0 tr with
  | .error e => .error e
  | .ok tr =>
    match sendLoop s P (fun _ => value) times 0 tr with
    | .error e => .error e
    | .ok tr =>
      let tr := csToggle s HIGH tr
      let tr := s.endTransaction tr
      .ok (true, tr)

/-- `memset(buffer, sendvalue, len)`. -/
def memset (buffer : Nat → Nat) (value len : Nat) : Nat → Nat :=
  fun j => if j < len then value % 256 else buffer j

/-- `SIKTEC_SPI::read`, lines 367-387: what `transfer` left behind (the
accesses start with the stores of `memset`) and the value returned. -/
def SIKTEC_SPI.read (s : SIKTEC_SPI) (P : Platform) (buffer : Nat → Nat) (len sendvalue : Nat)
    (tr : List Event) : Except Fault (Transferred × Bool) :=
  let buffer := memset buffer sendvalue len
  let tr := s.beginTransaction tr
  let tr := csToggle s LOW tr
  match s.transfer P buffer len tr with
  | .error e => .error e
  | .ok r =>
    let tr := csToggle s HIGH r.trace
    let tr := s.endTransaction tr
    .ok ({ buffer := r.buffer, trace := tr,
           accesses := (List.range len).map (fun j => Access.store j (sendvalue % 256))
             ++ r.accesses }, true)

/-- The loop `for (i = ...; i < n; i++) read_buffer[i] = transfer(sendvalue);`
on the memory `mem`, where `read_buffer` is an address. -/
def readLoop (s : SIKTEC_SPI) (P : Platform) (read_buffer sendvalue : Nat) :
    Nat → Nat → (Nat → Nat) × List Event → Except Fault ((Nat → Nat) × List Event)
  | 0, _, st => .ok st
  | n + 1, i, (mem, tr) =>
    match s.transfer1 P sendvalue tr with
    | .error e => .error e
    | .ok (got, tr) =>
      readLoop s P read_buffer sendvalue n (i + 1) (Function.update mem (read_buffer + i) got, tr)

/-- `SIKTEC_SPI::write_then_read`, lines 401-423. The two buffers may overlap
(the source says so), so both pointers are addresses into one memory `mem`.
The result is the memory and the trace afterwards and the value returned. -/
def SIKTEC_SPI.write_then_read (s : SIKTEC_SPI) (P : Platform) (mem : Nat → Nat)
    (write_buffer write_len read_buffer read_len sendvalue : Nat) (tr : List Event) :
    Except Fault ((Nat → Nat) × List Event × Bool) :=
  let tr := s.beginTransaction tr
  let tr := csToggle s LOW tr
  match sendLoop s P (fun i => mem (write_buffer + i)) write_len 0 tr with
  | .error e => .error e
  | .ok tr =>
    match readLoop s P read_buffer sendvalue read_len 0 (mem, tr) with
    | .error e => .error e
    | .ok (mem, tr) =>
      let tr := csToggle s HIGH tr
      let tr := s.endTransaction tr
      .ok (mem, tr, true)

/-! ## Observers

What a device on the bus sees of a trace. These definitions are not code of
the repository: they say how the pin events are read as bits and bytes. -/

/-- The masks the inner loop visits, first to last (`bitLoop_masks` shows that
the loop visits exactly these). -/
def masks (s : SIKTEC_SPI) : List Nat :=
  if s._dataOrder = SIKSPI_BITORDER_LSBFIRST then [0x01, 0x02, 0x04, 0x08, 0x10, 0x20, 0x40, 0x80]
  else [0x80, 0x40, 0x20, 0x10, 0x08, 0x04, 0x02, 0x01]

/-- The loop body applied to the masks `ms` in turn. -/
def folded (s : SIKTEC_SPI) (P : Platform) (d i send : Nat) (ms : List Nat) (st : Xfer) : Xfer :=
  ms.foldl (fun st b => bitBody s P d i send b st) st

/-- The data-out line as a receiver sees it: the level last written to the
data-out pin (none before the first write), and the levels it took, one at
each end of a clock pulse (the clock pin written `LOW`). -/
structure Line where
  level : Option Bool
  bits : List Bool
  deriving DecidableEq, Repr

/-- One event seen on the data-out line. A write of any non-zero value drives
the pin high (Arduino `digitalWrite`). -/
def observe (s : SIKTEC_SPI) (L : Line) : Event → Line
  | .digitalWrite p v =>
    if p = s._mosi then { L with level := some (toBool v) }
    else if p = s._sck ∧ v = LOW then { L with bits := L.bits ++ [L.level.getD false] }
    else L
  | _ => L

/-- The line after the events `tr`, from the line `L`. -/
def lineFrom (s : SIKTEC_SPI) (L : Line) (tr : List Event) : Line := tr.foldl (observe s) L

/-- The line after the events `tr`, nothing known before. -/
def line (s : SIKTEC_SPI) (tr : List Event) : Line := lineFrom s ⟨none, []⟩ tr

/-- Data-out wired to data-in: a read of the data-in pin finds the level last
written to the data-out pin. -/
def Loopback (s : SIKTEC_SPI) (P : Platform) : Prop :=
  ∀ hist v, (line s hist).level = some v → P.readPin hist s._miso = v

/-- The bits of the byte `x` under the masks, in the order of the masks. -/
def bitsOf (s : SIKTEC_SPI) (x : Nat) : List Bool := (masks s).map (fun b => toBool (x &&& b))

/-- The byte `r` with the mask of cycle `k` set in it whenever level `k` is high. -/
def gather (ms : List Nat) (levels : List Bool) (r : Nat) : Nat :=
  (ms.zip levels).foldl (fun r p => if p.2 = true then (r ||| p.1) % 256 else r) r

/-- The byte with the mask of cycle `k` set exactly when level `k` is high. -/
def assemble (ms : List Nat) (levels : List Bool) : Nat := gather ms levels 0

/-- The bits of the bytes `bytes`, byte after byte. -/
def bitsOfBytes (s : SIKTEC_SPI) (bytes : List Nat) : List Bool :=
  (bytes.map (bitsOf s)).flatten

/-- Levels taken eight at a time, each group assembled into a byte. -/
def packBytes (s : SIKTEC_SPI) : List Bool → List Nat
  | l0 :: l1 :: l2 :: l3 :: l4 :: l5 :: l6 :: l7 :: rest =>
    assemble (masks s) [l0, l1, l2, l3, l4, l5, l6, l7] :: packBytes s rest
  | _ => []

/-- The levels found by the reads of the data-in pin, in order. -/
def samples (s : SIKTEC_SPI) (tr : List Event) : List Bool :=
  tr.filterMap (fun e =>
    match e with
    | .digitalRead p v => if p = s._miso then some v else none
    | _ => none)

/-- The bytes handed to the peripheral, in order. -/
def hwSent (tr : List Event) : List Nat :=
  (tr.map (fun e => match e with | .spiTransfer sent _ => sent | _ => [])).flatten

/-- The bytes the peripheral handed back, in order. -/
def hwReceived (tr : List Event) : List Nat :=
  (tr.map (fun e => match e with | .spiTransfer _ received => received | _ => [])).flatten

/-- The bytes transmitted during the events `tr`: those handed to the
peripheral in hardware mode, those read off the data-out line in software mode. -/
def transmitted (s : SIKTEC_SPI) (tr : List Event) : List Nat :=
  if s._spi then hwSent tr else packBytes s (line s tr).bits

/-- The bytes received during the events `tr`: those the peripheral handed
back in hardware mode, those assembled from the data-in samples in software mode. -/
def received (s : SIKTEC_SPI) (tr : List Event) : List Nat :=
  if s._spi then hwReceived tr else packBytes s (samples s tr)

/-- The events the transfer engine may emit: in hardware mode peripheral
transfers; in software mode delays, writes of the clock pin and of a data-out
pin that is set, reads of a data-in pin that is set. -/
def isTransferEvent (s : SIKTEC_SPI) : Event → Bool
  | .delayMicroseconds _ => !s._spi
  | .digitalWrite p _ => !s._spi && decide (p = s._sck ∨ (p = s._mosi ∧ s._mosi ≠ -1))
  | .digitalRead p _ => !s._spi && decide (p = s._miso ∧ s._miso ≠ -1)
  | .spiTransfer _ _ => s._spi
  | _ => false

/-- The events `evs` transmit the bytes `bytes`, whatever was on the line
before: the peripheral is handed them (hardware mode), or the data-out line
shows their bits, one per clock pulse (software mode). -/
def Sends (s : SIKTEC_SPI) (evs : List Event) (bytes : List Nat) : Prop :=
  if s._spi = true then hwSent evs = bytes
  else ∀ L : Line, (lineFrom s L evs).bits = L.bits ++ bitsOfBytes s bytes

/-- The events `evs` receive the bytes `bytes`: the peripheral hands them back
(hardware mode), or the data-in pin is sampled eight times per byte and the
samples assemble to them (software mode). -/
def Receives (s : SIKTEC_SPI) (evs : List Event) (bytes : List Nat) : Prop :=
  if s._spi = true then hwReceived evs = bytes
  else (samples s evs).length = 8 * bytes.length ∧ packBytes s (samples s evs) = bytes

/-- A handle whose received bytes reach the caller: in software mode the
data-in pin is set; in hardware mode the build is not `STM32`, whose transfer
drops what the peripheral returns. -/
def Listens (s : SIKTEC_SPI) (P : Platform) : Prop :=
  (s._spi = false → s._miso ≠ -1) ∧ (s._spi = true → P.build ≠ Build.STM32)

/-- A handle whose data-out line can be observed: in software mode the
frequency is positive, the data-out pin is set, and the chip-select, clock and
data-out pins are three different pins. -/
def Wired (s : SIKTEC_SPI) : Prop :=
  s._spi = false →
    0 < s._freq ∧ s._mosi ≠ -1 ∧ s._sck ≠ s._mosi ∧ s._cs ≠ s._mosi ∧ s._cs ≠ s._sck

/-- The byte `reply` becomes when the bits of `send` come back under the masks `ms`. -/
def echo (send : Nat) (ms : List Nat) (reply : Nat) : Nat :=
  ms.foldl (fun r b => if toBool (send &&& b) = true then (r ||| b) % 256 else r) reply

/-- The delay events of `delayIf`. -/
def delayEvents (d : Nat) : List Event :=
  if d ≠ 0 then [Event.delayMicroseconds d] else []

/-- The events of one pass of the loop body up to the read of the data-in pin. -/
def bitHead (s : SIKTEC_SPI) (d : Nat) (lastmosi : Bool) (send b : Nat) : List Event :=
  if s._dataMode = SPI_MODE0 ∨ s._dataMode = SPI_MODE2 then
    delayEvents d
      ++ (if s._mosi ≠ -1 ∧ lastmosi ≠ toBool (send &&& b) then
            [Event.digitalWrite s._mosi (toBool (send &&& b)).toNat] else [])
      ++ [Event.digitalWrite s._sck HIGH] ++ delayEvents d
  else
    delayEvents d ++ [Event.digitalWrite s._sck HIGH] ++ delayEvents d
      ++ (if s._mosi ≠ -1 then [Event.digitalWrite s._mosi (send &&& b)] else [])
      ++ [Event.digitalWrite s._sck LOW]

/-- The events of one pass of the loop body from the read of the data-in pin on. -/
def bitTail (s : SIKTEC_SPI) (level : Bool) : List Event :=
  (if s._miso ≠ -1 then [Event.digitalRead s._miso level] else [])
    ++ (if s._dataMode = SPI_MODE0 ∨ s._dataMode = SPI_MODE2 then
          [Event.digitalWrite s._sck LOW] else [])

/-- The level the read of the data-in pin finds in one pass of the loop body. -/
def bitLevel (s : SIKTEC_SPI) (P : Platform) (d send b : Nat) (st : Xfer) : Bool :=
  P.readPin (st.trace ++ bitHead s d st.lastmosi send b) s._miso

/-- The value of `reply` after one pass of the loop body. -/
def bitReply (s : SIKTEC_SPI) (P : Platform) (d send b : Nat) (st : Xfer) : Nat :=
  if s._miso ≠ -1 ∧ bitLevel s P d send b st = true then (st.reply ||| b) % 256 else st.reply

/-! ## Example handles and platforms -/

/-- A software handle: chip-select 10, clock 13, data-in 12, data-out 11, 1 MHz. -/
def demoSoft (order : SIKSPI_BitOrder) (mode : Nat) : SIKTEC_SPI :=
  SIKTEC_SPI.software 10 13 12 11 1000000 order mode

/-- A hardware handle: chip-select 10, 1 MHz, MSB first, mode 0. -/
def demoHard : SIKTEC_SPI :=
  SIKTEC_SPI.hardware 10 1000000 SIKSPI_BITORDER_MSBFIRST SPI_MODE0

/-- A platform with data-out wired to data-in (the line reads low before the
first write); its peripheral echoes what it is sent. -/
def loopbackPlatform (s : SIKTEC_SPI) : Platform :=
  { readPin := fun hist _ => (line s hist).level.getD false
    exchange := fun _ sent j => sent.getD j 0
    build := Build.generic }

/-- A platform whose data-in pin is high on every second read and whose
peripheral answers byte `j` with `j + 1`, in the generic build. -/
def togglePlatform : Platform :=
  { readPin := fun hist _ => decide (hist.length % 2 = 0)
    exchange := fun _ _ j => j + 1
    build := Build.generic }

/-- The same platform in the `STM32` build. -/
def stm32Platform : Platform :=
  { togglePlatform with build := Build.STM32 }

/-! ## The events of the framing -/

/-- The events of `beginTransaction`. -/
def beginEvents (s : SIKTEC_SPI) : List Event :=
  if s._spi then [Event.spiBeginTransaction s._freq s._dataOrder s._dataMode] else []

/-- The events of `endTransaction`. -/
def endEvents (s : SIKTEC_SPI) : List Event :=
  if s._spi then [Event.spiEndTransaction] else []

/-- The events of `csToggle`. -/
def csEvents (s : SIKTEC_SPI) (val : Nat) : List Event :=
  if s._cs_control then [Event.digitalWrite s._cs val] else []

/-- The events of a framed operation whose transfers emit `evs`. -/
def framed (s : SIKTEC_SPI) (evs : List Event) : List Event :=
  beginEvents s ++ csEvents s LOW ++ evs ++ csEvents s HIGH ++ endEvents s

/-- The level last written to the pin `pin` in the events `tr`, from `level`. -/
def pinLevel (pin : Int) (level : Option Bool) (tr : List Event) : Option Bool :=
  tr.foldl (fun l e =>
    match e with
    | .digitalWrite p v => if p = pin then some (toBool v) else l
    | _ => l) level

/-- The number of writes to the pin `pin` in the events `tr`. -/
def pinWrites (pin : Int) (tr : List Event) : Nat :=
  (tr.filter (fun e =>
    match e with
    | .digitalWrite p _ => decide (p = pin)
    | _ => false)).length

/-- The events of a framed operation as the framing order prescribes them
with chip-select control enabled: begin-transaction (hardware mode only),
chip-select LOW, the transfer events `evs`, chip-select HIGH, end-transaction
(hardware mode only). -/
def inFrame (s : SIKTEC_SPI) (evs : List Event) : List Event :=
  (if s._spi then [Event.spiBeginTransaction s._freq s._dataOrder s._dataMode] else [])
    ++ [Event.digitalWrite s._cs LOW] ++ evs ++ [Event.digitalWrite s._cs HIGH]
    ++ (if s._spi then [Event.spiEndTransaction] else [])

/-- The mode last configured for the pin `pin` in the events `tr`, from `mode`. -/
def pinModeOf (pin : Int) (mode : Option Nat) (tr : List Event) : Option Nat :=
  tr.foldl (fun m e =>
    match e with
    | .pinMode p v => if p = pin then some v else m
    | _ => m) mode

/-- The number of pin reads in the events `tr`, on any pin. -/
def pinReads (tr : List Event) : Nat :=
  (tr.filter (fun e =>
    match e with
    | .digitalRead _ _ => true
    | _ => false)).length

/-! ## Further observers -/

/-- The durations of the busy-waits in the events `tr`, in order. -/
def delays (tr : List Event) : List Nat :=
  tr.filterMap (fun e =>
    match e with
    | .delayMicroseconds us => some us
    | _ => none)

/-- The number of begin-transaction and end-transaction events in `tr`. -/
def transactionEvents (tr : List Event) : Nat :=
  (tr.filter (fun e =>
    match e with
    | .spiBeginTransaction _ _ _ => true
    | .spiEndTransaction => true
    | _ => false)).length

/-- A software handle like `demoSoft` (mode 0, MSB first) at another frequency. -/
def demoFreq (freq : Nat) : SIKTEC_SPI :=
  SIKTEC_SPI.software 10 13 12 11 freq SIKSPI_BITORDER_MSBFIRST SPI_MODE0

/-! ## The passes of the loop body as a run -/

/-- The value of `lastmosi` after one pass of the loop body. -/
def nextLast (s : SIKTEC_SPI) (lastmosi : Bool) (send b : Nat) : Bool :=
  if (s._dataMode = SPI_MODE0 ∨ s._dataMode = SPI_MODE2) ∧ s._mosi ≠ -1 then
    toBool (send &&& b) else lastmosi

/-- The events `evs` are those of the passes of the loop body over the
(byte, mask) pairs `pairs`, one pass after the other, entered with `lastmosi`
equal to the first index and left with it equal to the last. -/
inductive BitRun (s : SIKTEC_SPI) (d : Nat) :
    Bool → List (Nat × Nat) → List Event → Bool → Prop where
  | done (lm : Bool) : BitRun s d lm [] [] lm
  | pass (lm : Bool) (send b : Nat) (level : Bool) (pairs : List (Nat × Nat))
      (evs : List Event) (lm' : Bool) :
      BitRun s d (nextLast s lm send b) pairs evs lm' →
      BitRun s d lm ((send, b) :: pairs) (bitHead s d lm send b ++ bitTail s level ++ evs) lm'

/-- The (byte, mask) pairs of the bytes `bytes`: each byte under each mask in turn. -/
def pairsOf (s : SIKTEC_SPI) (bytes : List Nat) : List (Nat × Nat) :=
  (bytes.map (fun x => (masks s).map (fun b => (x, b)))).flatten

/-- Whether the data-out pin was written since the last clock pulse ended,
and, for each clock pulse that ended, whether it was written during it. -/
structure Drive where
  pending : Bool
  marks : List Bool
  deriving DecidableEq, Repr

/-- One event seen by the watcher of data-out writes. -/
def observeDrive (s : SIKTEC_SPI) (D : Drive) : Event → Drive
  | .digitalWrite p v =>
    if p = s._mosi then { D with pending := true }
    else if p = s._sck ∧ v = LOW then { pending := false, marks := D.marks ++ [D.pending] }
    else D
  | _ => D

/-- For each clock pulse in the events `tr`, whether data-out was written for it. -/
def driven (s : SIKTEC_SPI) (tr : List Event) : List Bool :=
  (tr.foldl (observeDrive s) ⟨false, []⟩).marks

/-- For each bit of a bit stream, whether it is the first one or differs from
the one before it. -/
def edges : Option Bool → List Bool → List Bool
  | _, [] => []
  | before, b :: rest => decide (before ≠ some b) :: edges (some b) rest

/-- The number of adjacent unequal pairs in a bit stream. -/
def unequalPairs : List Bool → Nat
  | a :: b :: rest => (if a ≠ b then 1 else 0) + unequalPairs (b :: rest)
  | _ => 0

/-- The watcher of data-out writes after the events `tr`, from the state `D`. -/
def driveFrom (s : SIKTEC_SPI) (D : Drive) (tr : List Event) : Drive :=
  tr.foldl (observeDrive s) D

/-- For each pass of a run, whether the loop body writes the data-out pin in
it: the pin is set and, in data mode 0 or 2, `lastmosi` differs from the bit. -/
def writtenBits (s : SIKTEC_SPI) : Bool → List (Nat × Nat) → List Bool
  | _, [] => []
  | lm, (send, b) :: rest =>
    decide (s._mosi ≠ -1 ∧
        ((s._dataMode = SPI_MODE0 ∨ s._dataMode = SPI_MODE2) → lm ≠ toBool (send &&& b)))
      :: writtenBits s (nextLast s lm send b) rest

/-- The clock level after `bytes` bytes went over the line in the events
`evs`: LOW when there was at least one, unchanged when there was none. -/
def ClockAfter (s : SIKTEC_SPI) (bytes : Nat) (evs : List Event) : Prop :=
  ∀ l : Option Bool, pinLevel s._sck l evs = if bytes = 0 then l else some false

/-! ## Lemmas on the transfer engine -/

theorem bitLoop_masks (s : SIKTEC_SPI) (P : Platform) (d i send : Nat) (st : Xfer) :
    bitLoop s P d i send maskFuel (startbit s) st
      = .ok ((masks s).foldl (fun st b => bitBody s P d i send b st) st) := by
  cases h : s._dataOrder <;>
    simp [maskFuel, bitLoop, startbit, nextbit, masks, h]

theorem lineFrom_append (s : SIKTEC_SPI) (L : Line) (a b : List Event) :
    lineFrom s L (a ++ b) = lineFrom s (lineFrom s L a) b := by
  simp [lineFrom, List.foldl_append]

theorem delayIf_eq (d : Nat) (tr : List Event) : delayIf d tr = tr ++ delayEvents d := by
  unfold delayIf delayEvents
  split <;> simp

theorem bitBody_eq (s : SIKTEC_SPI) (P : Platform) (d i send b : Nat) (st : Xfer) :
    bitBody s P d i send b st =
      { reply := bitReply s P d send b st
        lastmosi :=
          if (s._dataMode = SPI_MODE0 ∨ s._dataMode = SPI_MODE2) ∧ s._mosi ≠ -1 then
            toBool (send &&& b) else st.lastmosi
        buffer :=
          if s._miso ≠ -1 then Function.update st.buffer i (bitReply s P d send b st)
          else st.buffer
        trace := st.trace ++ bitHead s d st.lastmosi send b
          ++ bitTail s (bitLevel s P d send b st)
        accesses := st.accesses ++
          if s._miso ≠ -1 then [Access.store i (bitReply s P d send b st)] else [] } := by
  unfold bitBody bitReply bitLevel bitHead bitTail sampleMiso
  simp only [delayIf_eq]
  by_cases hm : s._dataMode = SPI_MODE0 ∨ s._dataMode = SPI_MODE2 <;>
  by_cases hmosi : s._mosi = -1 <;>
  by_cases hmiso : s._miso = -1 <;>
  by_cases hw : st.lastmosi = toBool (send &&& b) <;>
  simp [hm, hmosi, hmiso, hw]

theorem toBool_toNat (x : Bool) : toBool x.toNat = x := by cases x <;> rfl

theorem lineFrom_nil (s : SIKTEC_SPI) (L : Line) : lineFrom s L [] = L := rfl

theorem lineFrom_cons (s : SIKTEC_SPI) (L : Line) (e : Event) (es : List Event) :
    lineFrom s L (e :: es) = lineFrom s (observe s L e) es := rfl

theorem lineFrom_delayEvents (s : SIKTEC_SPI) (L : Line) (d : Nat) :
    lineFrom s L (delayEvents d) = L := by
  unfold delayEvents
  split <;> rfl

theorem observe_mosi (s : SIKTEC_SPI) (L : Line) (v : Nat) :
    observe s L (Event.digitalWrite s._mosi v) = { L with level := some (toBool v) } := by
  simp [observe, toBool]

theorem observe_sck_HIGH (s : SIKTEC_SPI) (L : Line) (h : s._sck ≠ s._mosi) :
    observe s L (Event.digitalWrite s._sck HIGH) = L := by
  simp [observe, h, HIGH, LOW]

theorem observe_sck_LOW (s : SIKTEC_SPI) (L : Line) (h : s._sck ≠ s._mosi) :
    observe s L (Event.digitalWrite s._sck LOW)
      = { L with bits := L.bits ++ [L.level.getD false] } := by
  simp [observe, h]

theorem observe_read (s : SIKTEC_SPI) (L : Line) (p : Int) (v : Bool) :
    observe s L (Event.digitalRead p v) = L := rfl

/-- The level of the data-out line after the events that precede the sample of one bit. -/
theorem lineFrom_bitHead_level (s : SIKTEC_SPI) (d : Nat) (lastmosi : Bool) (send b : Nat)
    (L : Line) (hmosi : s._mosi ≠ -1) (hpin : s._sck ≠ s._mosi)
    (hinv : (s._dataMode = SPI_MODE0 ∨ s._dataMode = SPI_MODE2) →
      L.level = some lastmosi ∨ lastmosi ≠ toBool (send &&& b)) :
    (lineFrom s L (bitHead s d lastmosi send b)).level = some (toBool (send &&& b)) := by
  unfold bitHead
  by_cases hm : s._dataMode = SPI_MODE0 ∨ s._dataMode = SPI_MODE2
  · by_cases hw : lastmosi = toBool (send &&& b)
    · rcases hinv hm with h | h
      · subst hw
        simp [hm, hmosi, lineFrom_append, lineFrom_delayEvents, lineFrom_cons, lineFrom_nil,
          observe_sck_HIGH, hpin, h]
      · exact absurd hw h
    · simp [hm, hmosi, hw, lineFrom_append, lineFrom_delayEvents, lineFrom_cons, lineFrom_nil,
        observe_sck_HIGH, observe_mosi, hpin, toBool_toNat]
  · simp [hm, hmosi, lineFrom_append, lineFrom_delayEvents, lineFrom_cons, lineFrom_nil,
      observe_sck_HIGH, observe_sck_LOW, observe_mosi, hpin]

/-- One bit on the data-out line: the receiver takes the bit of `send` under the mask. -/
theorem lineFrom_bit (s : SIKTEC_SPI) (d : Nat) (lastmosi : Bool) (send b : Nat)
    (L : Line) (level : Bool) (hmosi : s._mosi ≠ -1) (hpin : s._sck ≠ s._mosi)
    (hinv : (s._dataMode = SPI_MODE0 ∨ s._dataMode = SPI_MODE2) →
      L.level = some lastmosi ∨ lastmosi ≠ toBool (send &&& b)) :
    lineFrom s L (bitHead s d lastmosi send b ++ bitTail s level)
      = { level := some (toBool (send &&& b)), bits := L.bits ++ [toBool (send &&& b)] } := by
  unfold bitHead bitTail
  by_cases hm : s._dataMode = SPI_MODE0 ∨ s._dataMode = SPI_MODE2
  · by_cases hw : lastmosi = toBool (send &&& b)
    · rcases hinv hm with h | h
      · subst hw
        by_cases hmiso : s._miso = -1 <;>
        simp [hm, hmosi, hmiso, lineFrom_append, lineFrom_delayEvents, lineFrom_cons, lineFrom_nil,
          observe_sck_HIGH, observe_sck_LOW, observe_read, hpin, h]
      · exact absurd hw h
    · by_cases hmiso : s._miso = -1 <;>
      simp [hm, hmosi, hmiso, hw, lineFrom_append, lineFrom_delayEvents, lineFrom_cons, lineFrom_nil,
        observe_sck_HIGH, observe_sck_LOW, observe_read, observe_mosi, hpin, toBool_toNat]
  · by_cases hmiso : s._miso = -1 <;>
    simp [hm, hmosi, hmiso, lineFrom_append, lineFrom_delayEvents, lineFrom_cons, lineFrom_nil,
      observe_sck_HIGH, observe_sck_LOW, observe_read, observe_mosi, hpin]

set_option maxRecDepth 100000 in
theorem echo_masks (s : SIKTEC_SPI) : ∀ send < 256, echo send (masks s) 0 = send := by
  cases h : s._dataOrder <;> simp only [masks, h, reduceCtorEq, if_false, if_true] <;> decide

theorem fold_loopback (s : SIKTEC_SPI) (P : Platform) (d i send : Nat)
    (hmosi : s._mosi ≠ -1) (hmiso : s._miso ≠ -1) (hpin : s._sck ≠ s._mosi)
    (hloop : Loopback s P) (ms : List Nat) :
    ∀ st : Xfer,
      ((s._dataMode = SPI_MODE0 ∨ s._dataMode = SPI_MODE2) →
        (line s st.trace).level = some st.lastmosi ∨
          ∃ b rest, ms = b :: rest ∧ st.lastmosi ≠ toBool (send &&& b)) →
      (folded s P d i send ms st).reply = echo send ms st.reply ∧
      (∀ j, j ≠ i → (folded s P d i send ms st).buffer j = st.buffer j) ∧
      (ms ≠ [] → (folded s P d i send ms st).buffer i = (folded s P d i send ms st).reply) ∧
      ((s._dataMode = SPI_MODE0 ∨ s._dataMode = SPI_MODE2) → ms ≠ [] →
        (line s (folded s P d i send ms st).trace).level
          = some (folded s P d i send ms st).lastmosi) := by
  induction ms with
  | nil =>
    intro st _
    simp [folded, echo]
  | cons b rest ih =>
    intro st hinv
    have hinv1 : (s._dataMode = SPI_MODE0 ∨ s._dataMode = SPI_MODE2) →
        (line s st.trace).level = some st.lastmosi ∨ st.lastmosi ≠ toBool (send &&& b) := by
      intro hm
      rcases hinv hm with h | ⟨b1, r1, hb, h⟩
      · exact Or.inl h
      · injection hb with hb1 _
        subst hb1
        exact Or.inr h
    have hlev : bitLevel s P d send b st = toBool (send &&& b) := by
      unfold bitLevel
      apply hloop
      unfold line
      rw [lineFrom_append]
      exact lineFrom_bitHead_level s d st.lastmosi send b _ hmosi hpin hinv1
    have hline : line s (bitBody s P d i send b st).trace
        = { level := some (toBool (send &&& b)),
            bits := (line s st.trace).bits ++ [toBool (send &&& b)] } := by
      rw [bitBody_eq]
      unfold line
      simp only []
      rw [List.append_assoc, lineFrom_append]
      exact lineFrom_bit s d st.lastmosi send b _ _ hmosi hpin hinv1
    have hlast : (s._dataMode = SPI_MODE0 ∨ s._dataMode = SPI_MODE2) →
        (bitBody s P d i send b st).lastmosi = toBool (send &&& b) := by
      intro hm
      rw [bitBody_eq]
      simp [hm, hmosi]
    have hreply : (bitBody s P d i send b st).reply
        = if toBool (send &&& b) = true then (st.reply ||| b) % 256 else st.reply := by
      rw [bitBody_eq]
      simp [bitReply, hlev, hmiso]
    have hbuf : (bitBody s P d i send b st).buffer
        = Function.update st.buffer i (bitBody s P d i send b st).reply := by
      rw [bitBody_eq]
      simp [hmiso]
    have ih1 := ih (bitBody s P d i send b st) (by
      intro hm
      left
      rw [hline, hlast hm])
    obtain ⟨h1, h2, h3, h4⟩ := ih1
    have hf : folded s P d i send (b :: rest) st
        = folded s P d i send rest (bitBody s P d i send b st) := rfl
    rw [hf]
    refine ⟨?_, ?_, ?_, ?_⟩
    · rw [h1, hreply]; rfl
    · intro j hj
      rw [h2 j hj, hbuf, Function.update_noteq hj]
    · intro _
      by_cases hr : rest = []
      · subst hr
        simp [folded, hbuf]
      · exact h3 hr
    · intro hm _
      by_cases hr : rest = []
      · subst hr
        simp only [folded, List.foldl_nil]
        rw [hline, hlast hm]
      · exact h4 hm hr

theorem byteBody_eq (s : SIKTEC_SPI) (P : Platform) (d i : Nat) (st : Xfer) :
    byteBody s P d i st
      = .ok (folded s P d i (st.buffer i) (masks s)
          { st with reply := 0, accesses := st.accesses ++ [Access.load i] }) := by
  unfold byteBody
  exact bitLoop_masks s P d i (st.buffer i) _

theorem masks_cons (s : SIKTEC_SPI) : ∃ rest, masks s = startbit s :: rest := by
  unfold masks startbit
  split <;> exact ⟨_, rfl⟩

theorem masks_ne_nil (s : SIKTEC_SPI) : masks s ≠ [] := by
  obtain ⟨rest, h⟩ := masks_cons s
  rw [h]
  exact List.cons_ne_nil _ _

theorem byteLoop_loopback (s : SIKTEC_SPI) (P : Platform) (d : Nat)
    (hmosi : s._mosi ≠ -1) (hmiso : s._miso ≠ -1) (hpin : s._sck ≠ s._mosi)
    (hloop : Loopback s P) (n : Nat) :
    ∀ (i : Nat) (st : Xfer),
      (∀ j, i ≤ j → j < i + n → st.buffer j < 256) →
      ((s._dataMode = SPI_MODE0 ∨ s._dataMode = SPI_MODE2) →
        (line s st.trace).level = some st.lastmosi ∨
          st.lastmosi ≠ toBool (st.buffer i &&& startbit s)) →
      ∃ st', byteLoop s P d n i st = .ok st' ∧ st'.buffer = st.buffer := by
  induction n with
  | zero =>
    intro i st _ _
    exact ⟨st, rfl, rfl⟩
  | succ n ih =>
    intro i st hb hinv
    obtain ⟨rest, hrest⟩ := masks_cons s
    have hf := fold_loopback s P d i (st.buffer i) hmosi hmiso hpin hloop (masks s)
      { st with reply := 0, accesses := st.accesses ++ [Access.load i] } (by
        intro hm
        rcases hinv hm with h | h
        · exact Or.inl h
        · exact Or.inr ⟨startbit s, rest, hrest, h⟩)
    obtain ⟨h1, h2, h3, h4⟩ := hf
    have hi : st.buffer i < 256 := hb i (Nat.le_refl i) (by omega)
    have hsame : (folded s P d i (st.buffer i) (masks s)
        { st with reply := 0, accesses := st.accesses ++ [Access.load i] }).buffer
          = st.buffer := by
      funext j
      by_cases hj : j = i
      · subst hj
        rw [h3 (masks_ne_nil s), h1]
        exact echo_masks s _ hi
      · exact h2 j hj
    have ih1 := ih (i + 1) (folded s P d i (st.buffer i) (masks s)
        { st with reply := 0, accesses := st.accesses ++ [Access.load i] }) (by
        intro j hj1 hj2
        rw [hsame]
        exact hb j (by omega) (by omega)) (by
        intro hm
        exact Or.inl (h4 hm (masks_ne_nil s)))
    obtain ⟨st', hst', hbuf'⟩ := ih1
    refine ⟨st', ?_, ?_⟩
    · simp only [byteLoop, byteBody_eq]
      exact hst'
    · rw [hbuf', hsame]

theorem bitdelay_ok (s : SIKTEC_SPI) (h : 0 < s._freq) :
    bitdelay s = .ok (((1000000 / s._freq) / 2) % 256) := by
  unfold bitdelay
  rw [if_neg (by omega)]

theorem samples_append (s : SIKTEC_SPI) (a b : List Event) :
    samples s (a ++ b) = samples s a ++ samples s b := by
  simp [samples, List.filterMap_append]

theorem samples_delayEvents (s : SIKTEC_SPI) (d : Nat) : samples s (delayEvents d) = [] := by
  unfold delayEvents
  split <;> rfl

theorem samples_nil (s : SIKTEC_SPI) : samples s [] = [] := rfl

theorem samples_write (s : SIKTEC_SPI) (p : Int) (v : Nat) (es : List Event) :
    samples s (Event.digitalWrite p v :: es) = samples s es := rfl

theorem samples_read (s : SIKTEC_SPI) (v : Bool) (es : List Event) :
    samples s (Event.digitalRead s._miso v :: es) = v :: samples s es := by
  simp [samples]

theorem samples_bit (s : SIKTEC_SPI) (d : Nat) (lastmosi : Bool) (send b : Nat) (level : Bool) :
    samples s (bitHead s d lastmosi send b ++ bitTail s level)
      = if s._miso ≠ -1 then [level] else [] := by
  unfold bitHead bitTail
  by_cases hm : s._dataMode = SPI_MODE0 ∨ s._dataMode = SPI_MODE2 <;>
  by_cases hmosi : s._mosi = -1 <;>
  by_cases hmiso : s._miso = -1 <;>
  by_cases hw : lastmosi = toBool (send &&& b) <;>
  simp [hm, hmosi, hmiso, hw, samples_append, samples_delayEvents, samples_nil, samples_write,
    samples_read]

theorem transferEvent_delayEvents (s : SIKTEC_SPI) (d : Nat) (hsw : s._spi = false) :
    (delayEvents d).all (isTransferEvent s) = true := by
  unfold delayEvents
  split <;> simp [isTransferEvent, hsw]

theorem transferEvent_bit (s : SIKTEC_SPI) (d : Nat) (lastmosi : Bool) (send b : Nat)
    (level : Bool) (hsw : s._spi = false) :
    (bitHead s d lastmosi send b ++ bitTail s level).all (isTransferEvent s) = true := by
  unfold bitHead bitTail
  by_cases hm : s._dataMode = SPI_MODE0 ∨ s._dataMode = SPI_MODE2 <;>
  by_cases hmosi : s._mosi = -1 <;>
  by_cases hmiso : s._miso = -1 <;>
  by_cases hw : lastmosi = toBool (send &&& b) <;>
  simp [hm, hmosi, hmiso, hw, List.all_append, transferEvent_delayEvents, isTransferEvent, hsw]

theorem bitBody_trace (s : SIKTEC_SPI) (P : Platform) (d i send b : Nat) (st : Xfer) :
    (bitBody s P d i send b st).trace
      = st.trace ++ (bitHead s d st.lastmosi send b ++ bitTail s (bitLevel s P d send b st)) := by
  rw [bitBody_eq, List.append_assoc]

theorem bitBody_reply (s : SIKTEC_SPI) (P : Platform) (d i send b : Nat) (st : Xfer) :
    (bitBody s P d i send b st).reply = bitReply s P d send b st := by
  rw [bitBody_eq]

theorem bitBody_buffer (s : SIKTEC_SPI) (P : Platform) (d i send b : Nat) (st : Xfer) :
    (bitBody s P d i send b st).buffer
      = if s._miso ≠ -1 then Function.update st.buffer i (bitReply s P d send b st)
        else st.buffer := by
  rw [bitBody_eq]

theorem bitBody_lastmosi (s : SIKTEC_SPI) (P : Platform) (d i send b : Nat) (st : Xfer) :
    (bitBody s P d i send b st).lastmosi
      = if (s._dataMode = SPI_MODE0 ∨ s._dataMode = SPI_MODE2) ∧ s._mosi ≠ -1 then
          toBool (send &&& b) else st.lastmosi := by
  rw [bitBody_eq]

theorem gather_cons (b : Nat) (ms : List Nat) (level : Bool) (lv : List Bool) (r : Nat) :
    gather (b :: ms) (level :: lv) r
      = gather ms lv (if level = true then (r ||| b) % 256 else r) := rfl

theorem folded_cons (s : SIKTEC_SPI) (P : Platform) (d i send b : Nat) (ms : List Nat)
    (st : Xfer) :
    folded s P d i send (b :: ms) st = folded s P d i send ms (bitBody s P d i send b st) := rfl

/-- Everything the eight passes of the loop body do, for any platform. -/
theorem fold_spec (s : SIKTEC_SPI) (P : Platform) (d i send : Nat) (hsw : s._spi = false)
    (ms : List Nat) :
    ∀ st : Xfer, ∃ (evs : List Event) (lv : List Bool),
      (folded s P d i send ms st).trace = st.trace ++ evs ∧
      evs.all (isTransferEvent s) = true ∧
      lv.length = ms.length ∧
      samples s evs = (if s._miso ≠ -1 then lv else []) ∧
      (folded s P d i send ms st).reply
        = (if s._miso ≠ -1 then gather ms lv st.reply else st.reply) ∧
      (∀ j, j ≠ i → (folded s P d i send ms st).buffer j = st.buffer j) ∧
      (s._miso ≠ -1 → ms ≠ [] →
        (folded s P d i send ms st).buffer i = (folded s P d i send ms st).reply) ∧
      (s._miso = -1 → (folded s P d i send ms st).buffer = st.buffer) ∧
      (s._mosi ≠ -1 → s._sck ≠ s._mosi → ∀ L : Line,
        ((s._dataMode = SPI_MODE0 ∨ s._dataMode = SPI_MODE2) →
          L.level = some st.lastmosi ∨
            ∃ b rest, ms = b :: rest ∧ st.lastmosi ≠ toBool (send &&& b)) →
        (lineFrom s L evs).bits = L.bits ++ ms.map (fun b => toBool (send &&& b)) ∧
        ((s._dataMode = SPI_MODE0 ∨ s._dataMode = SPI_MODE2) → ms ≠ [] →
          (lineFrom s L evs).level = some (folded s P d i send ms st).lastmosi)) := by
  induction ms with
  | nil =>
    intro st
    refine ⟨[], [], ?_⟩
    simp [folded, gather, samples_nil, lineFrom_nil]
  | cons b rest ih =>
    intro st
    obtain ⟨evs, lv, h1, h2, h3, h4, h5, h6, h7, h8, h9⟩ := ih (bitBody s P d i send b st)
    refine ⟨(bitHead s d st.lastmosi send b ++ bitTail s (bitLevel s P d send b st)) ++ evs,
      bitLevel s P d send b st :: lv, ?_, ?_, ?_, ?_, ?_, ?_, ?_, ?_, ?_⟩
    · rw [folded_cons, h1, bitBody_trace, List.append_assoc]
    · rw [List.all_append, transferEvent_bit _ _ _ _ _ _ hsw, h2]; rfl
    · simp [h3]
    · rw [samples_append, samples_bit, h4]
      by_cases hmiso : s._miso = -1 <;> simp [hmiso]
    · rw [folded_cons, h5, bitBody_reply]
      by_cases hmiso : s._miso = -1
      · simp [hmiso, bitReply]
      · simp [hmiso, bitReply, gather_cons]
    · intro j hj
      rw [folded_cons, h6 j hj, bitBody_buffer]
      by_cases hmiso : s._miso = -1
      · simp [hmiso]
      · simp [hmiso, Function.update_noteq hj]
    · intro hmiso _
      rw [folded_cons]
      by_cases hr : rest = []
      · subst hr
        simp [folded, bitBody_buffer, bitBody_reply, hmiso]
      · exact h7 hmiso hr
    · intro hmiso
      rw [folded_cons, h8 hmiso, bitBody_buffer]
      simp [hmiso]
    · intro hmosi hpin L hinv
      have hinv1 : (s._dataMode = SPI_MODE0 ∨ s._dataMode = SPI_MODE2) →
          L.level = some st.lastmosi ∨ st.lastmosi ≠ toBool (send &&& b) := by
        intro hm
        rcases hinv hm with h | ⟨b1, r1, hb, h⟩
        · exact Or.inl h
        · injection hb with hb1 _
          subst hb1
          exact Or.inr h
      have hbit := lineFrom_bit s d st.lastmosi send b L (bitLevel s P d send b st)
        hmosi hpin hinv1
      have hlast : (s._dataMode = SPI_MODE0 ∨ s._dataMode = SPI_MODE2) →
          (bitBody s P d i send b st).lastmosi = toBool (send &&& b) := by
        intro hm
        rw [bitBody_lastmosi]
        simp [hm, hmosi]
      obtain ⟨h9a, h9b⟩ := h9 hmosi hpin
        { level := some (toBool (send &&& b)), bits := L.bits ++ [toBool (send &&& b)] }
        (by intro hm; left; simp [hlast hm])
      rw [lineFrom_append, hbit]
      refine ⟨?_, ?_⟩
      · rw [h9a]
        simp
      · intro hm _
        rw [folded_cons]
        by_cases hr : rest = []
        · subst hr
          have hnil : evs = [] := by
            have := h1
            simp only [folded, List.foldl_nil] at this
            exact (List.append_right_eq_self.mp this.symm)
          subst hnil
          simp [lineFrom_nil, folded, hlast hm]
        · exact h9b hm hr


theorem packBytes_append (s : SIKTEC_SPI) (lv rest : List Bool) (h : lv.length = 8) :
    packBytes s (lv ++ rest) = assemble (masks s) lv :: packBytes s rest := by
  match lv, h with
  | [_, _, _, _, _, _, _, _], _ => rfl

theorem bitsOfBytes_cons (s : SIKTEC_SPI) (x : Nat) (xs : List Nat) :
    bitsOfBytes s (x :: xs) = bitsOf s x ++ bitsOfBytes s xs := by
  simp [bitsOfBytes]

theorem masks_length (s : SIKTEC_SPI) : (masks s).length = 8 := by
  unfold masks
  split <;> rfl

/-- Everything the outer loop does, for any platform. -/
theorem byteLoop_spec (s : SIKTEC_SPI) (P : Platform) (d : Nat) (hsw : s._spi = false)
    (n : Nat) :
    ∀ (i : Nat) (st : Xfer), ∃ (st' : Xfer) (evs : List Event) (lv : List Bool),
      byteLoop s P d n i st = .ok st' ∧
      st'.trace = st.trace ++ evs ∧
      evs.all (isTransferEvent s) = true ∧
      lv.length = 8 * n ∧
      samples s evs = (if s._miso ≠ -1 then lv else []) ∧
      (s._miso ≠ -1 → packBytes s lv = (List.range' i n).map st'.buffer) ∧
      (∀ j, j < i ∨ i + n ≤ j → st'.buffer j = st.buffer j) ∧
      (s._miso = -1 → st'.buffer = st.buffer) ∧
      (s._mosi ≠ -1 → s._sck ≠ s._mosi → ∀ L : Line,
        ((s._dataMode = SPI_MODE0 ∨ s._dataMode = SPI_MODE2) →
          L.level = some st.lastmosi ∨ st.lastmosi ≠ toBool (st.buffer i &&& startbit s)) →
        (lineFrom s L evs).bits = L.bits ++ bitsOfBytes s ((List.range' i n).map st.buffer) ∧
        ((s._dataMode = SPI_MODE0 ∨ s._dataMode = SPI_MODE2) →
          (n ≠ 0 ∨ L.level = some st.lastmosi) →
          (lineFrom s L evs).level = some st'.lastmosi)) := by
  induction n with
  | zero =>
    intro i st
    refine ⟨st, [], [], rfl, by simp, rfl, rfl, by simp [samples_nil], ?_, ?_, ?_, ?_⟩
    · intro _; rfl
    · intro j _; rfl
    · intro _; rfl
    · intro _ _ L _
      refine ⟨by simp [lineFrom_nil, bitsOfBytes], ?_⟩
      intro _ h
      rcases h with h | h
      · exact absurd rfl h
      · simpa [lineFrom_nil] using h
  | succ n ih =>
    intro i st
    obtain ⟨rest, hrest⟩ := masks_cons s
    obtain ⟨e1, l1, a1, a2, a3, a4, a5, a6, a7, a8, a9⟩ :=
      fold_spec s P d i (st.buffer i) hsw (masks s)
        { st with reply := 0, accesses := st.accesses ++ [Access.load i] }
    obtain ⟨st', e2, l2, b1, b2, b3, b4, b5, b6, b7, b8, b9⟩ :=
      ih (i + 1) (folded s P d i (st.buffer i) (masks s)
        { st with reply := 0, accesses := st.accesses ++ [Access.load i] })
    rw [masks_length] at a3
    refine ⟨st', e1 ++ e2, l1 ++ l2, ?_, ?_, ?_, ?_, ?_, ?_, ?_, ?_, ?_⟩
    · simp only [byteLoop, byteBody_eq]
      exact b1
    · rw [b2, a1, List.append_assoc]
    · rw [List.all_append, a2, b3]; rfl
    · simp [a3, b4]; omega
    · rw [samples_append, a4, b5]
      by_cases hmiso : s._miso = -1 <;> simp [hmiso]
    · intro hmiso
      rw [packBytes_append s l1 l2 a3, b6 hmiso, List.range'_succ, List.map_cons]
      congr 1
      rw [b7 i (Or.inl (Nat.lt_succ_self i)), a7 hmiso (masks_ne_nil s), a5]
      simp [hmiso, assemble]
    · intro j hj
      rw [b7 j (by omega), a6 j (by omega)]
    · intro hmiso
      rw [b8 hmiso, a8 hmiso]
    · intro hmosi hpin L hinv
      obtain ⟨a9a, a9b⟩ := a9 hmosi hpin L (by
        intro hm
        rcases hinv hm with h | h
        · exact Or.inl h
        · exact Or.inr ⟨startbit s, rest, hrest, h⟩)
      obtain ⟨b9a, b9b⟩ := b9 hmosi hpin (lineFrom s L e1) (by
        intro hm
        exact Or.inl (a9b hm (masks_ne_nil s)))
      rw [lineFrom_append]
      refine ⟨?_, ?_⟩
      · rw [b9a, a9a, List.range'_succ, List.map_cons, bitsOfBytes_cons, List.append_assoc]
        congr 2
        · congr 1
          apply List.map_congr_left
          intro j hj
          rw [List.mem_range'_1] at hj
          exact a6 j (by omega)
      · intro hm _
        exact b9b hm (Or.inr (a9b hm (masks_ne_nil s)))


/-- Everything the software transfer does, for any platform. -/
theorem transfer_soft_spec (s : SIKTEC_SPI) (P : Platform) (buffer : Nat → Nat) (len : Nat)
    (tr : List Event) (hsw : s._spi = false) (hfreq : 0 < s._freq) :
    ∃ (r : Transferred) (evs : List Event),
      s.transfer P buffer len tr = .ok r ∧
      r.trace = tr ++ evs ∧
      evs.all (isTransferEvent s) = true ∧
      (s._miso ≠ -1 → (samples s evs).length = 8 * len ∧
        packBytes s (samples s evs) = (List.range len).map r.buffer) ∧
      (∀ j, len ≤ j → r.buffer j = buffer j) ∧
      (s._miso = -1 → r.buffer = buffer ∧ samples s evs = []) ∧
      (s._mosi ≠ -1 → s._sck ≠ s._mosi → ∀ L : Line,
        (lineFrom s L evs).bits = L.bits ++ bitsOfBytes s ((List.range len).map buffer)) := by
  obtain ⟨st', evs, lv, h1, h2, h3, h4, h5, h6, h7, h8, h9⟩ :=
    byteLoop_spec s P (((1000000 / s._freq) / 2) % 256) hsw len 0
      { reply := 0, lastmosi := !(toBool (buffer 0 &&& startbit s)), buffer := buffer,
        trace := tr, accesses := [Access.load 0] }
  refine ⟨{ buffer := st'.buffer, trace := st'.trace, accesses := st'.accesses }, evs,
    ?_, h2, h3, ?_, ?_, ?_, ?_⟩
  · unfold SIKTEC_SPI.transfer
    simp only [hsw, bitdelay_ok s hfreq, h1]
    simp
  · intro hmiso
    rw [h5, if_pos hmiso, List.range_eq_range']
    exact ⟨h4, h6 hmiso⟩
  · intro j hj
    exact h7 j (Or.inr (by omega))
  · intro hmiso
    refine ⟨h8 hmiso, ?_⟩
    rw [h5]
    simp [hmiso]
  · intro hmosi hpin L
    rw [List.range_eq_range']
    exact (h9 hmosi hpin L (by intro _; right; simp)).1

/-- The hardware transfer outside the `STM32` build: one peripheral call. -/
theorem transfer_hard_spec (s : SIKTEC_SPI) (P : Platform) (buffer : Nat → Nat) (len : Nat)
    (tr : List Event) (hhw : s._spi = true) (hb : P.build ≠ Build.STM32) :
    s.transfer P buffer len tr
      = .ok { buffer := fun j =>
                if j < len then
                  ((List.range len).map
                    (fun j => P.exchange tr ((List.range len).map buffer) j % 256)).getD j 0
                else buffer j
              trace := tr ++ [Event.spiTransfer ((List.range len).map buffer)
                ((List.range len).map
                  (fun j => P.exchange tr ((List.range len).map buffer) j % 256))]
              accesses := [] } := by
  unfold SIKTEC_SPI.transfer
  simp [hhw, hb]

/-- The hardware transfer in the `STM32` build: the loop of one-byte
peripheral calls, the buffer left as it was. -/
theorem transfer_stm32_spec (s : SIKTEC_SPI) (P : Platform) (buffer : Nat → Nat) (len : Nat)
    (tr : List Event) (hhw : s._spi = true) (hb : P.build = Build.STM32) :
    s.transfer P buffer len tr
      = .ok { buffer := buffer, trace := stm32Loop P buffer len 0 tr, accesses := [] } := by
  unfold SIKTEC_SPI.transfer
  simp [hhw, hb]

/-- What the loop of the `STM32` build emits: one peripheral transfer per
byte, of the bytes of the buffer in order. -/
theorem stm32Loop_spec (s : SIKTEC_SPI) (P : Platform) (buffer : Nat → Nat)
    (hhw : s._spi = true) (n : Nat) :
    ∀ (i : Nat) (tr : List Event), ∃ evs : List Event,
      stm32Loop P buffer n i tr = tr ++ evs ∧
      evs.all (isTransferEvent s) = true ∧
      hwSent evs = (List.range' i n).map buffer ∧
      (hwReceived evs).length = n := by
  induction n with
  | zero =>
    intro i tr
    exact ⟨[], by simp [stm32Loop], rfl, rfl, rfl⟩
  | succ n ih =>
    intro i tr
    obtain ⟨evs, h1, h2, h3, h4⟩ :=
      ih (i + 1) (tr ++ [Event.spiTransfer [buffer i] [P.exchange tr [buffer i] 0 % 256]])
    refine ⟨Event.spiTransfer [buffer i] [P.exchange tr [buffer i] 0 % 256] :: evs,
      ?_, ?_, ?_, ?_⟩
    · simp only [stm32Loop, h1, List.append_assoc, List.singleton_append]
    · simp [isTransferEvent, hhw, h2]
    · rw [List.range'_succ, List.map_cons, ← h3]
      simp [hwSent]
    · have : hwReceived (Event.spiTransfer [buffer i] [P.exchange tr [buffer i] 0 % 256] :: evs)
          = (P.exchange tr [buffer i] 0 % 256) :: hwReceived evs := by
        simp [hwReceived]
      rw [this, List.length_cons, h4]


set_option maxRecDepth 100000 in
theorem assemble_bitsOf (s : SIKTEC_SPI) : ∀ x < 256, assemble (masks s) (bitsOf s x) = x := by
  cases h : s._dataOrder <;>
    simp only [bitsOf, masks, h, reduceCtorEq, if_false, if_true] <;> decide

theorem bitsOf_length (s : SIKTEC_SPI) (x : Nat) : (bitsOf s x).length = 8 := by
  simp [bitsOf, masks_length]

theorem packBytes_bitsOfBytes (s : SIKTEC_SPI) (bytes : List Nat)
    (h : ∀ x ∈ bytes, x < 256) : packBytes s (bitsOfBytes s bytes) = bytes := by
  induction bytes with
  | nil => rfl
  | cons x xs ih =>
    rw [bitsOfBytes_cons, packBytes_append s _ _ (bitsOf_length s x),
      assemble_bitsOf s x (h x (List.mem_cons_self x xs)),
      ih (fun y hy => h y (List.mem_cons_of_mem x hy))]

theorem transmitted_of_bits (s : SIKTEC_SPI) (evs : List Event) (bytes : List Nat)
    (hsw : s._spi = false) (hb : ∀ x ∈ bytes, x < 256)
    (h : ∀ L : Line, (lineFrom s L evs).bits = L.bits ++ bitsOfBytes s bytes) :
    transmitted s evs = bytes := by
  unfold transmitted line
  rw [hsw, h]
  simpa using packBytes_bitsOfBytes s bytes hb


theorem beginTransaction_eq (s : SIKTEC_SPI) (tr : List Event) :
    s.beginTransaction tr = tr ++ beginEvents s := by
  unfold SIKTEC_SPI.beginTransaction beginEvents
  split <;> simp

theorem endTransaction_eq (s : SIKTEC_SPI) (tr : List Event) :
    s.endTransaction tr = tr ++ endEvents s := by
  unfold SIKTEC_SPI.endTransaction endEvents
  split <;> simp

theorem csToggle_eq (s : SIKTEC_SPI) (val : Nat) (tr : List Event) :
    csToggle s val tr = tr ++ csEvents s val := by
  unfold csToggle csEvents
  split <;> simp

theorem hwSent_append (a b : List Event) : hwSent (a ++ b) = hwSent a ++ hwSent b := by
  simp [hwSent]

theorem hwReceived_append (a b : List Event) :
    hwReceived (a ++ b) = hwReceived a ++ hwReceived b := by
  simp [hwReceived]

theorem bitsOfBytes_append (s : SIKTEC_SPI) (a b : List Nat) :
    bitsOfBytes s (a ++ b) = bitsOfBytes s a ++ bitsOfBytes s b := by
  simp [bitsOfBytes]

theorem bitsOfBytes_length (s : SIKTEC_SPI) (a : List Nat) :
    (bitsOfBytes s a).length = 8 * a.length := by
  induction a with
  | nil => rfl
  | cons x xs ih =>
    rw [bitsOfBytes_cons, List.length_append, bitsOf_length, ih, List.length_cons]
    omega

theorem Sends_nil (s : SIKTEC_SPI) : Sends s [] [] := by
  unfold Sends
  split
  · rfl
  · intro L
    simp [lineFrom_nil, bitsOfBytes]

theorem Sends_append (s : SIKTEC_SPI) (e1 e2 : List Event) (b1 b2 : List Nat)
    (h1 : Sends s e1 b1) (h2 : Sends s e2 b2) : Sends s (e1 ++ e2) (b1 ++ b2) := by
  unfold Sends at *
  by_cases hs : s._spi = true
  · rw [if_pos hs] at *
    rw [hwSent_append, h1, h2]
  · rw [if_neg hs] at *
    intro L
    rw [lineFrom_append, h2, h1, bitsOfBytes_append, List.append_assoc]

theorem packBytes_append_full (s : SIKTEC_SPI) (n : Nat) :
    ∀ (a b : List Bool), a.length = 8 * n → packBytes s (a ++ b) = packBytes s a ++ packBytes s b := by
  induction n with
  | zero =>
    intro a b h
    have : a = [] := List.length_eq_zero.mp (by omega)
    subst this
    rfl
  | succ n ih =>
    intro a b h
    match a, h with
    | l0 :: l1 :: l2 :: l3 :: l4 :: l5 :: l6 :: l7 :: rest, h =>
      have hrest : rest.length = 8 * n := by
        simp only [List.length_cons] at h
        omega
      exact congrArg _ (ih rest b hrest)

theorem Receives_nil (s : SIKTEC_SPI) : Receives s [] [] := by
  unfold Receives
  split
  · rfl
  · exact ⟨rfl, rfl⟩

theorem Receives_append (s : SIKTEC_SPI) (e1 e2 : List Event) (b1 b2 : List Nat)
    (h1 : Receives s e1 b1) (h2 : Receives s e2 b2) : Receives s (e1 ++ e2) (b1 ++ b2) := by
  unfold Receives at *
  by_cases hs : s._spi = true
  · rw [if_pos hs] at *
    rw [hwReceived_append, h1, h2]
  · rw [if_neg hs] at *
    obtain ⟨h1a, h1b⟩ := h1
    obtain ⟨h2a, h2b⟩ := h2
    refine ⟨?_, ?_⟩
    · rw [samples_append, List.length_append, h1a, h2a, List.length_append]
      omega
    · rw [samples_append, packBytes_append_full s _ _ _ h1a, h1b, h2b]

theorem lineFrom_beginEvents (s : SIKTEC_SPI) (L : Line) : lineFrom s L (beginEvents s) = L := by
  unfold beginEvents
  split <;> rfl

theorem lineFrom_endEvents (s : SIKTEC_SPI) (L : Line) : lineFrom s L (endEvents s) = L := by
  unfold endEvents
  split <;> rfl

theorem lineFrom_csEvents (s : SIKTEC_SPI) (L : Line) (val : Nat)
    (h1 : s._cs ≠ s._mosi) (h2 : s._cs ≠ s._sck) : lineFrom s L (csEvents s val) = L := by
  unfold csEvents
  split
  · simp [lineFrom_cons, lineFrom_nil, observe, h1, h2]
  · rfl

theorem Sends_beginEvents (s : SIKTEC_SPI) : Sends s (beginEvents s) [] := by
  unfold Sends
  split
  · unfold beginEvents
    split <;> rfl
  · intro L
    simp [lineFrom_beginEvents, bitsOfBytes]

theorem Sends_endEvents (s : SIKTEC_SPI) : Sends s (endEvents s) [] := by
  unfold Sends
  split
  · unfold endEvents
    split <;> rfl
  · intro L
    simp [lineFrom_endEvents, bitsOfBytes]

theorem Sends_csEvents (s : SIKTEC_SPI) (val : Nat)
    (h : s._spi = false → s._cs ≠ s._mosi ∧ s._cs ≠ s._sck) : Sends s (csEvents s val) [] := by
  unfold Sends
  split
  · unfold csEvents
    split <;> rfl
  · next hs =>
    intro L
    have hs' : s._spi = false := by simpa using hs
    simp [lineFrom_csEvents s L val (h hs').1 (h hs').2, bitsOfBytes]

theorem Receives_beginEvents (s : SIKTEC_SPI) : Receives s (beginEvents s) [] := by
  unfold Receives beginEvents
  split <;> first | rfl | exact ⟨rfl, rfl⟩

theorem Receives_endEvents (s : SIKTEC_SPI) : Receives s (endEvents s) [] := by
  unfold Receives endEvents
  split <;> first | rfl | exact ⟨rfl, rfl⟩

theorem Receives_csEvents (s : SIKTEC_SPI) (val : Nat) : Receives s (csEvents s val) [] := by
  unfold Receives csEvents
  split <;> split <;> first | rfl | exact ⟨rfl, rfl⟩

/-- Framing changes nothing of what is transmitted. -/
theorem Sends_framed (s : SIKTEC_SPI) (evs : List Event) (bytes : List Nat)
    (hcs : s._spi = false → s._cs ≠ s._mosi ∧ s._cs ≠ s._sck) (h : Sends s evs bytes) :
    Sends s (framed s evs) bytes := by
  have := Sends_append s _ _ _ _ (Sends_append s _ _ _ _ (Sends_append s _ _ _ _
    (Sends_append s _ _ _ _ (Sends_beginEvents s) (Sends_csEvents s LOW hcs)) h)
    (Sends_csEvents s HIGH hcs)) (Sends_endEvents s)
  simpa [framed] using this

/-- Framing changes nothing of what is received. -/
theorem Receives_framed (s : SIKTEC_SPI) (evs : List Event) (bytes : List Nat)
    (h : Receives s evs bytes) : Receives s (framed s evs) bytes := by
  have := Receives_append s _ _ _ _ (Receives_append s _ _ _ _ (Receives_append s _ _ _ _
    (Receives_append s _ _ _ _ (Receives_beginEvents s) (Receives_csEvents s LOW)) h)
    (Receives_csEvents s HIGH)) (Receives_endEvents s)
  simpa [framed] using this

theorem transmitted_of_Sends (s : SIKTEC_SPI) (evs : List Event) (bytes : List Nat)
    (hb : ∀ x ∈ bytes, x < 256) (h : Sends s evs bytes) : transmitted s evs = bytes := by
  unfold Sends at h
  by_cases hs : s._spi = true
  · rw [if_pos hs] at h
    simp [transmitted, hs, h]
  · rw [if_neg hs] at h
    exact transmitted_of_bits s evs bytes (by simpa using hs) hb h

theorem received_of_Receives (s : SIKTEC_SPI) (evs : List Event) (bytes : List Nat)
    (h : Receives s evs bytes) : received s evs = bytes := by
  unfold Receives at h
  by_cases hs : s._spi = true
  · rw [if_pos hs] at h
    simp [received, hs, h]
  · rw [if_neg hs] at h
    simp [received, hs, h.2]


theorem Sends_of_bits (s : SIKTEC_SPI) (evs : List Event) (bytes : List Nat)
    (hsw : s._spi = false)
    (h : ∀ L : Line, (lineFrom s L evs).bits = L.bits ++ bitsOfBytes s bytes) :
    Sends s evs bytes := by
  unfold Sends
  rw [if_neg (by simp [hsw])]
  exact h

/-- What one call of `transfer(buffer, len)` does, in either mode and any build. -/
theorem transfer_spec (s : SIKTEC_SPI) (P : Platform) (buffer : Nat → Nat) (len : Nat)
    (tr : List Event) (hfreq : s._spi = false → 0 < s._freq) :
    ∃ (r : Transferred) (evs : List Event),
      s.transfer P buffer len tr = .ok r ∧
      r.trace = tr ++ evs ∧
      evs.all (isTransferEvent s) = true ∧
      ((s._spi = false → s._mosi ≠ -1 ∧ s._sck ≠ s._mosi) →
        Sends s evs ((List.range len).map buffer)) ∧
      (Listens s P → Receives s evs ((List.range len).map r.buffer)) ∧
      (∀ j, len ≤ j → r.buffer j = buffer j) ∧
      (s._spi = false → s._miso = -1 → r.buffer = buffer ∧ samples s evs = []) := by
  by_cases hs : s._spi = true
  · by_cases hb : P.build = Build.STM32
    · obtain ⟨evs, h1, h2, h3, _⟩ := stm32Loop_spec s P buffer hs len 0 tr
      refine ⟨{ buffer := buffer, trace := stm32Loop P buffer len 0 tr, accesses := [] }, evs,
        transfer_stm32_spec s P buffer len tr hs hb, h1, h2, ?_, ?_, ?_, ?_⟩
      · intro _
        unfold Sends
        rw [if_pos hs, h3, List.range_eq_range']
      · intro h
        exact absurd hb (h.2 hs)
      · intro j _
        rfl
      · intro h
        rw [hs] at h
        exact absurd h (by decide)
    · refine ⟨_, [Event.spiTransfer ((List.range len).map buffer)
          ((List.range len).map
            (fun j => P.exchange tr ((List.range len).map buffer) j % 256))],
        transfer_hard_spec s P buffer len tr hs hb, rfl, ?_, ?_, ?_, ?_, ?_⟩
      · simp [isTransferEvent, hs]
      · intro _
        simp [Sends, hs, hwSent]
      · intro _
        simp only [Receives, hs, if_true, hwReceived, List.map_cons, List.map_nil,
          List.flatten_cons, List.flatten_nil, List.append_nil]
        symm
        apply List.map_congr_left
        intro j hj
        have hj' : j < len := List.mem_range.mp hj
        simp [hj', List.getD_eq_getElem?_getD]
      · intro j hj
        simp [Nat.not_lt.mpr hj]
      · intro h
        rw [hs] at h
        exact absurd h (by decide)
  · have hsw : s._spi = false := by simpa using hs
    obtain ⟨r, evs, h1, h2, h3, h4, h5, h6, h7⟩ :=
      transfer_soft_spec s P buffer len tr hsw (hfreq hsw)
    refine ⟨r, evs, h1, h2, h3, ?_, ?_, h5, fun _ => h6⟩
    · intro h
      exact Sends_of_bits s evs _ hsw (h7 (h hsw).1 (h hsw).2)
    · intro h
      obtain ⟨h4a, h4b⟩ := h4 (h.1 hsw)
      unfold Receives
      rw [if_neg hs, List.length_map, List.length_range]
      exact ⟨h4a, h4b⟩

/-- What one call of `transfer(send)` does, in either mode. -/
theorem transfer1_spec (s : SIKTEC_SPI) (P : Platform) (send : Nat) (tr : List Event)
    (hfreq : s._spi = false → 0 < s._freq) :
    ∃ (got : Nat) (evs : List Event),
      s.transfer1 P send tr = .ok (got, tr ++ evs) ∧
      evs.all (isTransferEvent s) = true ∧
      ((s._spi = false → s._mosi ≠ -1 ∧ s._sck ≠ s._mosi) → Sends s evs [send]) ∧
      (Listens s P → Receives s evs [got]) ∧
      (s._spi = false → s._miso = -1 → got = send ∧ samples s evs = []) := by
  obtain ⟨r, evs, h1, h2, h3, h4, h5, _, h7⟩ := transfer_spec s P (fun _ => send) 1 tr hfreq
  refine ⟨r.buffer 0, evs, ?_, h3, ?_, ?_, ?_⟩
  · unfold SIKTEC_SPI.transfer1
    rw [h1]
    simp only [h2]
  · intro h
    simpa using h4 h
  · intro h
    simpa using h5 h
  · intro hsw hmiso
    obtain ⟨ha, hb⟩ := h7 hsw hmiso
    exact ⟨by rw [ha], hb⟩

/-- What the loop of discarded transfers does, in either mode. -/
theorem sendLoop_spec (s : SIKTEC_SPI) (P : Platform) (byte : Nat → Nat)
    (hfreq : s._spi = false → 0 < s._freq) (n : Nat) :
    ∀ (i : Nat) (tr : List Event), ∃ (evs : List Event),
      sendLoop s P byte n i tr = .ok (tr ++ evs) ∧
      evs.all (isTransferEvent s) = true ∧
      ((s._spi = false → s._mosi ≠ -1 ∧ s._sck ≠ s._mosi) →
        Sends s evs ((List.range' i n).map byte)) ∧
      (Listens s P → ∃ bytes, bytes.length = n ∧ Receives s evs bytes) ∧
      (s._spi = false → s._miso = -1 → samples s evs = []) := by
  induction n with
  | zero =>
    intro i tr
    refine ⟨[], by simp [sendLoop], rfl, fun _ => Sends_nil s, fun _ => ⟨[], rfl, Receives_nil s⟩,
      fun _ _ => rfl⟩
  | succ n ih =>
    intro i tr
    obtain ⟨got, e1, a1, a2, a3, a4, a5⟩ := transfer1_spec s P (byte i) tr hfreq
    obtain ⟨e2, b1, b2, b3, b4, b5⟩ := ih (i + 1) (tr ++ e1)
    refine ⟨e1 ++ e2, ?_, ?_, ?_, ?_, ?_⟩
    · simp only [sendLoop, a1, b1, List.append_assoc]
    · rw [List.all_append, a2, b2]; rfl
    · intro h
      rw [List.range'_succ, List.map_cons]
      exact Sends_append s e1 e2 [byte i] _ (a3 h) (b3 h)
    · intro h
      obtain ⟨bytes, hl, hr⟩ := b4 h
      exact ⟨got :: bytes, by simp [hl], Receives_append s e1 e2 [got] bytes (a4 h) hr⟩
    · intro hsw hmiso
      rw [samples_append, (a5 hsw hmiso).2, b5 hsw hmiso]
      rfl

/-- What the loop of stored transfers does, in either mode. -/
theorem readLoop_spec (s : SIKTEC_SPI) (P : Platform) (read_buffer sendvalue : Nat)
    (hfreq : s._spi = false → 0 < s._freq) (n : Nat) :
    ∀ (i : Nat) (mem : Nat → Nat) (tr : List Event), ∃ (mem' : Nat → Nat) (evs : List Event),
      readLoop s P read_buffer sendvalue n i (mem, tr) = .ok (mem', tr ++ evs) ∧
      evs.all (isTransferEvent s) = true ∧
      ((s._spi = false → s._mosi ≠ -1 ∧ s._sck ≠ s._mosi) →
        Sends s evs (List.replicate n sendvalue)) ∧
      (Listens s P →
        Receives s evs ((List.range' i n).map (fun k => mem' (read_buffer + k)))) ∧
      (s._spi = false → s._miso = -1 →
        ∀ k, i ≤ k → k < i + n → mem' (read_buffer + k) = sendvalue) ∧
      (∀ a, (∀ k, i ≤ k → k < i + n → a ≠ read_buffer + k) → mem' a = mem a) := by
  induction n with
  | zero =>
    intro i mem tr
    refine ⟨mem, [], by simp [readLoop], rfl, fun _ => Sends_nil s, fun _ => Receives_nil s,
      ?_, fun _ _ => rfl⟩
    intro _ _ k h1 h2
    omega
  | succ n ih =>
    intro i mem tr
    obtain ⟨got, e1, a1, a2, a3, a4, a5⟩ := transfer1_spec s P sendvalue tr hfreq
    obtain ⟨mem', e2, b1, b2, b3, b4, b5, b6⟩ :=
      ih (i + 1) (Function.update mem (read_buffer + i) got) (tr ++ e1)
    have hi : mem' (read_buffer + i) = got := by
      rw [b6 (read_buffer + i) (by intro k hk _; omega)]
      simp
    refine ⟨mem', e1 ++ e2, ?_, ?_, ?_, ?_, ?_, ?_⟩
    · simp only [readLoop, a1, b1, List.append_assoc]
    · rw [List.all_append, a2, b2]; rfl
    · intro h
      rw [List.replicate_succ]
      exact Sends_append s e1 e2 [sendvalue] _ (a3 h) (b3 h)
    · intro h
      rw [List.range'_succ, List.map_cons, hi]
      exact Receives_append s e1 e2 [got] _ (a4 h) (b4 h)
    · intro hsw hmiso k hk1 hk2
      by_cases hki : k = i
      · subst hki
        rw [hi]
        exact (a5 hsw hmiso).1
      · exact b5 hsw hmiso k (by omega) (by omega)
    · intro a ha
      rw [b6 a (by intro k hk1 hk2; exact ha k (by omega) (by omega))]
      exact Function.update_noteq (ha i (Nat.le_refl i) (by omega)) _ _


theorem range_map_memset (buffer : Nat → Nat) (value len : Nat) :
    (List.range len).map (memset buffer value len) = List.replicate len (value % 256) := by
  rw [List.eq_replicate_iff]
  refine ⟨by simp, ?_⟩
  intro b hb
  rw [List.mem_map] at hb
  obtain ⟨j, hj, rfl⟩ := hb
  simp [memset, List.mem_range.mp hj]

theorem range_map_const (n v : Nat) : (List.range' 0 n).map (fun _ => v) = List.replicate n v := by
  simp [List.map_const']

/-- What `read` does, in either mode. -/
theorem read_spec (s : SIKTEC_SPI) (P : Platform) (buffer : Nat → Nat) (len sendvalue : Nat)
    (tr : List Event) (hfreq : s._spi = false → 0 < s._freq) :
    ∃ (r : Transferred) (evs : List Event),
      s.read P buffer len sendvalue tr = .ok (r, true) ∧
      r.trace = tr ++ framed s evs ∧
      evs.all (isTransferEvent s) = true ∧
      ((s._spi = false → s._mosi ≠ -1 ∧ s._sck ≠ s._mosi) →
        Sends s evs (List.replicate len (sendvalue % 256))) ∧
      (Listens s P → Receives s evs ((List.range len).map r.buffer)) ∧
      (∀ j, len ≤ j → r.buffer j = buffer j) := by
  obtain ⟨r, evs, h1, h2, h3, h4, h5, h6, _⟩ :=
    transfer_spec s P (memset buffer sendvalue len) len
      (csToggle s LOW (s.beginTransaction tr)) hfreq
  refine ⟨{ buffer := r.buffer, trace := s.endTransaction (csToggle s HIGH r.trace),
             accesses := (List.range len).map (fun j => Access.store j (sendvalue % 256))
               ++ r.accesses }, evs, ?_, ?_, h3, ?_, h5, ?_⟩
  · unfold SIKTEC_SPI.read
    simp only [h1]
  · simp only [h2, csToggle_eq, beginTransaction_eq, endTransaction_eq, framed,
      List.append_assoc]
  · intro h
    rw [← range_map_memset buffer sendvalue len]
    exact h4 h
  · intro j hj
    rw [h6 j hj]
    simp [memset, Nat.not_lt.mpr hj]

/-- What `write` does, in either mode. -/
theorem write_spec (s : SIKTEC_SPI) (P : Platform) (buffer : Nat → Nat) (len : Nat)
    (prefix_buffer : Nat → Nat) (prefix_len : Nat) (invertBuffer : Bool) (tr : List Event)
    (hfreq : s._spi = false → 0 < s._freq) :
    ∃ (evs : List Event),
      s.write P buffer len prefix_buffer prefix_len invertBuffer tr
        = .ok (true, tr ++ framed s evs) ∧
      evs.all (isTransferEvent s) = true ∧
      ((s._spi = false → s._mosi ≠ -1 ∧ s._sck ≠ s._mosi) →
        Sends s evs
          (if invertBuffer = true then
            (List.range prefix_len).map (fun i => complement (prefix_buffer i))
              ++ (List.range len).map (fun i => complement (buffer i))
          else (List.range prefix_len).map prefix_buffer ++ (List.range len).map buffer)) := by
  cases invertBuffer with
  | true =>
    obtain ⟨e1, a1, a2, a3, _, _⟩ :=
      sendLoop_spec s P (fun i => complement (prefix_buffer i)) hfreq prefix_len 0
        (csToggle s LOW (s.beginTransaction tr))
    obtain ⟨e2, b1, b2, b3, _, _⟩ :=
      sendLoop_spec s P (fun i => complement (buffer i)) hfreq len 0
        (csToggle s LOW (s.beginTransaction tr) ++ e1)
    refine ⟨e1 ++ e2, ?_, ?_, ?_⟩
    · unfold SIKTEC_SPI.write
      simp only [if_true, a1, b1]
      simp only [csToggle_eq, beginTransaction_eq, endTransaction_eq, framed,
        List.append_assoc]
    · rw [List.all_append, a2, b2]; rfl
    · intro h
      simp only [if_true, List.range_eq_range']
      exact Sends_append s e1 e2 _ _ (a3 h) (b3 h)
  | false =>
    obtain ⟨e1, a1, a2, a3, _, _⟩ :=
      sendLoop_spec s P prefix_buffer hfreq prefix_len 0
        (csToggle s LOW (s.beginTransaction tr))
    obtain ⟨e2, b1, b2, b3, _, _⟩ :=
      sendLoop_spec s P buffer hfreq len 0
        (csToggle s LOW (s.beginTransaction tr) ++ e1)
    refine ⟨e1 ++ e2, ?_, ?_, ?_⟩
    · unfold SIKTEC_SPI.write
      simp only [Bool.false_eq_true, if_false, a1, b1]
      simp only [csToggle_eq, beginTransaction_eq, endTransaction_eq, framed,
        List.append_assoc]
    · rw [List.all_append, a2, b2]; rfl
    · intro h
      simp only [Bool.false_eq_true, if_false, List.range_eq_range']
      exact Sends_append s e1 e2 _ _ (a3 h) (b3 h)

/-- What `repeated` does, in either mode. -/
theorem repeated_spec (s : SIKTEC_SPI) (P : Platform) (value times : Nat)
    (prefix_buffer : Nat → Nat) (prefix_len : Nat) (tr : List Event)
    (hfreq : s._spi = false → 0 < s._freq) :
    ∃ (evs : List Event),
      s.repeated P value times prefix_buffer prefix_len tr = .ok (true, tr ++ framed s evs) ∧
      evs.all (isTransferEvent s) = true ∧
      ((s._spi = false → s._mosi ≠ -1 ∧ s._sck ≠ s._mosi) →
        Sends s evs ((List.range prefix_len).map prefix_buffer ++ List.replicate times value)) := by
  obtain ⟨e1, a1, a2, a3, _, _⟩ :=
    sendLoop_spec s P prefix_buffer hfreq prefix_len 0
      (csToggle s LOW (s.beginTransaction tr))
  obtain ⟨e2, b1, b2, b3, _, _⟩ :=
    sendLoop_spec s P (fun _ => value) hfreq times 0
      (csToggle s LOW (s.beginTransaction tr) ++ e1)
  refine ⟨e1 ++ e2, ?_, ?_, ?_⟩
  · unfold SIKTEC_SPI.repeated
    simp only [a1, b1]
    simp only [csToggle_eq, beginTransaction_eq, endTransaction_eq, framed,
      List.append_assoc]
  · rw [List.all_append, a2, b2]; rfl
  · intro h
    rw [List.range_eq_range', ← range_map_const times value]
    exact Sends_append s e1 e2 _ _ (a3 h) (b3 h)

/-- What `write_then_read` does, in either mode. -/
theorem write_then_read_spec (s : SIKTEC_SPI) (P : Platform) (mem : Nat → Nat)
    (write_buffer write_len read_buffer read_len sendvalue : Nat) (tr : List Event)
    (hfreq : s._spi = false → 0 < s._freq) :
    ∃ (mem' : Nat → Nat) (evs : List Event),
      s.write_then_read P mem write_buffer write_len read_buffer read_len sendvalue tr
        = .ok (mem', tr ++ framed s evs, true) ∧
      evs.all (isTransferEvent s) = true ∧
      ((s._spi = false → s._mosi ≠ -1 ∧ s._sck ≠ s._mosi) →
        Sends s evs ((List.range write_len).map (fun i => mem (write_buffer + i))
          ++ List.replicate read_len sendvalue)) ∧
      (Listens s P →
        ∃ bytes, bytes.length = write_len ∧
          Receives s evs (bytes ++ (List.range read_len).map (fun k => mem' (read_buffer + k)))) ∧
      (∀ a, (∀ k, k < read_len → a ≠ read_buffer + k) → mem' a = mem a) := by
  obtain ⟨e1, a1, a2, a3, a4, _⟩ :=
    sendLoop_spec s P (fun i => mem (write_buffer + i)) hfreq write_len 0
      (csToggle s LOW (s.beginTransaction tr))
  obtain ⟨mem', e2, b1, b2, b3, b4, _, b6⟩ :=
    readLoop_spec s P read_buffer sendvalue hfreq read_len 0 mem
      (csToggle s LOW (s.beginTransaction tr) ++ e1)
  refine ⟨mem', e1 ++ e2, ?_, ?_, ?_, ?_, ?_⟩
  · unfold SIKTEC_SPI.write_then_read
    simp only [a1, b1]
    simp only [csToggle_eq, beginTransaction_eq, endTransaction_eq, framed,
      List.append_assoc]
  · rw [List.all_append, a2, b2]; rfl
  · intro h
    rw [List.range_eq_range']
    exact Sends_append s e1 e2 _ _ (a3 h) (b3 h)
  · intro h
    obtain ⟨bytes, hl, hr⟩ := a4 h
    refine ⟨bytes, hl, ?_⟩
    rw [List.range_eq_range']
    exact Receives_append s e1 e2 _ _ hr (b4 h)
  · intro a ha
    exact b6 a (by intro k _ hk; exact ha k (by omega))

/-- What `write_and_read` does, in either mode. -/
theorem write_and_read_spec (s : SIKTEC_SPI) (P : Platform) (write : Nat) (tr : List Event)
    (hfreq : s._spi = false → 0 < s._freq) :
    ∃ (got : Nat) (evs : List Event),
      s.write_and_read P write tr
        = .ok (got, tr ++ (csEvents s LOW ++ evs ++ csEvents s HIGH)) ∧
      evs.all (isTransferEvent s) = true ∧
      ((s._spi = false → s._mosi ≠ -1 ∧ s._sck ≠ s._mosi) → Sends s evs [write]) ∧
      (Listens s P → Receives s evs [got]) := by
  obtain ⟨got, evs, h1, h2, h3, h4, _⟩ := transfer1_spec s P write (csToggle s LOW tr) hfreq
  refine ⟨got, evs, ?_, h2, h3, h4⟩
  unfold SIKTEC_SPI.write_and_read
  simp only [h1]
  simp only [csToggle_eq, List.append_assoc]


set_option maxRecDepth 100000 in
theorem complement_eq_xor : ∀ x < 256, complement x = x ^^^ 0xFF := by
  decide

theorem complement_lt (x : Nat) : complement x < 256 := by
  unfold complement
  omega

theorem map_complement (l : List Nat) (h : ∀ x ∈ l, x < 256) :
    l.map complement = l.map (fun b => b ^^^ 0xFF) := by
  apply List.map_congr_left
  intro x hx
  exact complement_eq_xor x (h x hx)

theorem range_map_lt (n : Nat) (f : Nat → Nat) (h : ∀ j, j < n → f j < 256) :
    ∀ x ∈ (List.range n).map f, x < 256 := by
  intro x hx
  rw [List.mem_map] at hx
  obtain ⟨j, hj, rfl⟩ := hx
  exact h j (List.mem_range.mp hj)

theorem Wired_sends (s : SIKTEC_SPI) (h : Wired s) :
    s._spi = false → s._mosi ≠ -1 ∧ s._sck ≠ s._mosi :=
  fun hsw => ⟨(h hsw).2.1, (h hsw).2.2.1⟩

theorem Wired_cs (s : SIKTEC_SPI) (h : Wired s) :
    s._spi = false → s._cs ≠ s._mosi ∧ s._cs ≠ s._sck :=
  fun hsw => ⟨(h hsw).2.2.2.1, (h hsw).2.2.2.2⟩

theorem Wired_freq (s : SIKTEC_SPI) (h : Wired s) : s._spi = false → 0 < s._freq :=
  fun hsw => (h hsw).1


theorem framed_eq_inFrame (s : SIKTEC_SPI) (evs : List Event) (h : s._cs_control = true) :
    framed s evs = inFrame s evs := by
  simp [framed, inFrame, beginEvents, endEvents, csEvents, h]

theorem framed_no_control (s : SIKTEC_SPI) (evs : List Event) (h : s._cs_control = false) :
    framed s evs = beginEvents s ++ evs ++ endEvents s := by
  simp [framed, csEvents, h]

theorem pinWrites_append (pin : Int) (a b : List Event) :
    pinWrites pin (a ++ b) = pinWrites pin a + pinWrites pin b := by
  simp [pinWrites]

theorem pinWrites_beginEvents (s : SIKTEC_SPI) (pin : Int) : pinWrites pin (beginEvents s) = 0 := by
  unfold beginEvents
  split <;> rfl

theorem pinWrites_endEvents (s : SIKTEC_SPI) (pin : Int) : pinWrites pin (endEvents s) = 0 := by
  unfold endEvents
  split <;> rfl

theorem pinLevel_append (pin : Int) (l : Option Bool) (a b : List Event) :
    pinLevel pin l (a ++ b) = pinLevel pin (pinLevel pin l a) b := by
  simp [pinLevel, List.foldl_append]

theorem pinLevel_of_no_writes (pin : Int) (evs : List Event) :
    ∀ l : Option Bool, pinWrites pin evs = 0 → pinLevel pin l evs = l := by
  induction evs with
  | nil => intro l _; rfl
  | cons e es ih =>
    intro l h
    cases e with
    | digitalWrite p v =>
      by_cases hp : p = pin
      · simp [pinWrites, hp] at h
      · have h' : pinWrites pin es = 0 := by simpa [pinWrites, hp] using h
        have := ih l h'
        simpa [pinLevel, hp] using this
    | _ =>
      have h' : pinWrites pin es = 0 := by simpa [pinWrites] using h
      have := ih l h'
      simpa [pinLevel] using this

/-- The transfer engine never writes a chip-select pin that is not the clock
or data-out pin. -/
theorem pinWrites_cs_transfer (s : SIKTEC_SPI) (evs : List Event)
    (hcs : s._spi = false → s._cs ≠ s._sck ∧ s._cs ≠ s._mosi)
    (h : evs.all (isTransferEvent s) = true) : pinWrites s._cs evs = 0 := by
  induction evs with
  | nil => rfl
  | cons e es ih =>
    rw [List.all_cons, Bool.and_eq_true] at h
    have hes := ih h.2
    have he := h.1
    cases e with
    | digitalWrite p v =>
      have hp : p ≠ s._cs := by
        intro hp
        subst hp
        by_cases hs : s._spi = true
        · simp [isTransferEvent, hs] at he
        · have hsw : s._spi = false := by simpa using hs
          have := hcs hsw
          simp [isTransferEvent, hsw, this.1, this.2] at he
      have : pinWrites s._cs (Event.digitalWrite p v :: es) = pinWrites s._cs es := by
        simp [pinWrites, hp]
      rw [this, hes]
    | _ =>
      simpa [pinWrites] using hes

/-- A trace that ends with a frame leaves chip-select HIGH. -/
theorem inFrame_level (s : SIKTEC_SPI) (tr evs : List Event) (l : Option Bool) :
    pinLevel s._cs l (tr ++ inFrame s evs) = some true := by
  unfold inFrame
  by_cases hs : s._spi = true <;>
  simp [hs, pinLevel_append] <;>
  simp [pinLevel, toBool, HIGH]


/-- Without a data-in pin the transfer engine reads no pin. -/
theorem pinReads_transfer (s : SIKTEC_SPI) (evs : List Event) (hmiso : s._miso = -1)
    (h : evs.all (isTransferEvent s) = true) : pinReads evs = 0 := by
  induction evs with
  | nil => rfl
  | cons e es ih =>
    rw [List.all_cons, Bool.and_eq_true] at h
    have hes := ih h.2
    have he := h.1
    cases e with
    | digitalRead p v => simp [isTransferEvent, hmiso] at he
    | _ => simpa [pinReads] using hes


theorem transactionEvents_append (a b : List Event) :
    transactionEvents (a ++ b) = transactionEvents a + transactionEvents b := by
  simp [transactionEvents]

/-- The transfer engine signals no transaction. -/
theorem transactionEvents_transfer (s : SIKTEC_SPI) (evs : List Event)
    (h : evs.all (isTransferEvent s) = true) : transactionEvents evs = 0 := by
  induction evs with
  | nil => rfl
  | cons e es ih =>
    rw [List.all_cons, Bool.and_eq_true] at h
    have hes := ih h.2
    have he := h.1
    cases e with
    | spiBeginTransaction f o m => simp [isTransferEvent] at he
    | spiEndTransaction => simp [isTransferEvent] at he
    | _ => simpa [transactionEvents] using hes

theorem transactionEvents_csEvents (s : SIKTEC_SPI) (val : Nat) :
    transactionEvents (csEvents s val) = 0 := by
  unfold csEvents
  split <;> rfl

/-- In hardware mode, outside the `STM32` build, `transfer(send)` is one
peripheral transfer of one byte and returns the byte that came back. -/
theorem transfer1_hard (s : SIKTEC_SPI) (P : Platform) (send : Nat) (tr : List Event)
    (hs : s._spi = true) (hb : P.build ≠ Build.STM32) :
    s.transfer1 P send tr
      = .ok (P.exchange tr [send] 0 % 256,
          tr ++ [Event.spiTransfer [send] [P.exchange tr [send] 0 % 256]]) := by
  simp [SIKTEC_SPI.transfer1, SIKTEC_SPI.transfer, hs, hb, List.range_succ]

/-- In hardware mode in the `STM32` build `transfer(send)` is one peripheral
transfer of one byte and returns `send`. -/
theorem transfer1_stm32 (s : SIKTEC_SPI) (P : Platform) (send : Nat) (tr : List Event)
    (hs : s._spi = true) (hb : P.build = Build.STM32) :
    s.transfer1 P send tr
      = .ok (send, tr ++ [Event.spiTransfer [send] [P.exchange tr [send] 0 % 256]]) := by
  simp [SIKTEC_SPI.transfer1, SIKTEC_SPI.transfer, hs, hb, stm32Loop]


theorem BitRun_append (s : SIKTEC_SPI) (d : Nat) (lm lm1 lm2 : Bool)
    (p1 p2 : List (Nat × Nat)) (e1 e2 : List Event)
    (h1 : BitRun s d lm p1 e1 lm1) (h2 : BitRun s d lm1 p2 e2 lm2) :
    BitRun s d lm (p1 ++ p2) (e1 ++ e2) lm2 := by
  induction h1 with
  | done lm => simpa using h2
  | pass lm send b level pairs evs lm' _ ih =>
    have := BitRun.pass lm send b level (pairs ++ p2) (evs ++ e2) lm2 (ih h2)
    simpa [List.append_assoc] using this

/-- The passes of the loop body over the masks `ms` form a run. -/
theorem fold_run (s : SIKTEC_SPI) (P : Platform) (d i send : Nat) (ms : List Nat) :
    ∀ st : Xfer, ∃ evs : List Event,
      (folded s P d i send ms st).trace = st.trace ++ evs ∧
      BitRun s d st.lastmosi (ms.map (fun b => (send, b))) evs
        (folded s P d i send ms st).lastmosi := by
  induction ms with
  | nil =>
    intro st
    exact ⟨[], by simp [folded], BitRun.done _⟩
  | cons b rest ih =>
    intro st
    obtain ⟨evs, h1, h2⟩ := ih (bitBody s P d i send b st)
    refine ⟨bitHead s d st.lastmosi send b ++ bitTail s (bitLevel s P d send b st) ++ evs,
      ?_, ?_⟩
    · rw [folded_cons, h1, bitBody_trace]
      simp only [List.append_assoc]
    · rw [folded_cons, List.map_cons]
      apply BitRun.pass
      rw [bitBody_lastmosi] at h2
      exact h2

theorem pairsOf_cons (s : SIKTEC_SPI) (x : Nat) (xs : List Nat) :
    pairsOf s (x :: xs) = (masks s).map (fun b => (x, b)) ++ pairsOf s xs := by
  simp [pairsOf]

/-- The outer loop forms a run over the bytes the buffer held when it was entered. -/
theorem byteLoop_run (s : SIKTEC_SPI) (P : Platform) (d : Nat) (hsw : s._spi = false)
    (n : Nat) :
    ∀ (i : Nat) (st : Xfer), ∃ (st' : Xfer) (evs : List Event),
      byteLoop s P d n i st = .ok st' ∧
      st'.trace = st.trace ++ evs ∧
      BitRun s d st.lastmosi (pairsOf s ((List.range' i n).map st.buffer)) evs st'.lastmosi := by
  induction n with
  | zero =>
    intro i st
    exact ⟨st, [], rfl, by simp, BitRun.done _⟩
  | succ n ih =>
    intro i st
    obtain ⟨e1, a1, a2⟩ := fold_run s P d i (st.buffer i) (masks s)
      { st with reply := 0, accesses := st.accesses ++ [Access.load i] }
    obtain ⟨_, _, _, _, _, _, _, a6, _, _, _⟩ := fold_spec s P d i (st.buffer i) hsw (masks s)
      { st with reply := 0, accesses := st.accesses ++ [Access.load i] }
    obtain ⟨st', e2, b1, b2, b3⟩ := ih (i + 1) (folded s P d i (st.buffer i) (masks s)
      { st with reply := 0, accesses := st.accesses ++ [Access.load i] })
    refine ⟨st', e1 ++ e2, ?_, ?_, ?_⟩
    · simp only [byteLoop, byteBody_eq]
      exact b1
    · rw [b2, a1, List.append_assoc]
    · rw [List.range'_succ, List.map_cons, pairsOf_cons]
      have hmap : (List.range' (i + 1) n).map (folded s P d i (st.buffer i) (masks s)
          { st with reply := 0, accesses := st.accesses ++ [Access.load i] }).buffer
            = (List.range' (i + 1) n).map st.buffer := by
        apply List.map_congr_left
        intro j hj
        rw [List.mem_range'_1] at hj
        exact a6 j (by omega)
      rw [hmap] at b3
      exact BitRun_append s d _ _ _ _ _ _ _ a2 b3

/-- The software transfer forms a run over the bytes of the buffer. -/
theorem transfer_run (s : SIKTEC_SPI) (P : Platform) (buffer : Nat → Nat) (len : Nat)
    (tr : List Event) (hsw : s._spi = false) (hfreq : 0 < s._freq) :
    ∃ (r : Transferred) (evs : List Event) (lm' : Bool),
      s.transfer P buffer len tr = .ok r ∧
      r.trace = tr ++ evs ∧
      BitRun s (((1000000 / s._freq) / 2) % 256) (!(toBool (buffer 0 &&& startbit s)))
        (pairsOf s ((List.range len).map buffer)) evs lm' := by
  obtain ⟨st', evs, h1, h2, h3⟩ :=
    byteLoop_run s P (((1000000 / s._freq) / 2) % 256) hsw len 0
      { reply := 0, lastmosi := !(toBool (buffer 0 &&& startbit s)), buffer := buffer,
        trace := tr, accesses := [Access.load 0] }
  refine ⟨{ buffer := st'.buffer, trace := st'.trace, accesses := st'.accesses }, evs,
    st'.lastmosi, ?_, h2, ?_⟩
  · unfold SIKTEC_SPI.transfer
    simp only [hsw, bitdelay_ok s hfreq, h1]
    simp
  · rw [List.range_eq_range']
    exact h3


theorem pairsOf_length (s : SIKTEC_SPI) (bytes : List Nat) :
    (pairsOf s bytes).length = 8 * bytes.length := by
  induction bytes with
  | nil => rfl
  | cons x xs ih =>
    rw [pairsOf_cons, List.length_append, List.length_map, masks_length, ih, List.length_cons]
    omega

theorem pinLevel_delayEvents (pin : Int) (l : Option Bool) (d : Nat) :
    pinLevel pin l (delayEvents d) = l := by
  unfold delayEvents
  split <;> rfl

/-- One pass of the loop body leaves the clock LOW. -/
theorem pinLevel_sck_bit (s : SIKTEC_SPI) (d : Nat) (lastmosi : Bool) (send b : Nat)
    (level : Bool) (l : Option Bool) :
    pinLevel s._sck l (bitHead s d lastmosi send b ++ bitTail s level) = some false := by
  unfold bitHead bitTail
  by_cases hm : s._dataMode = SPI_MODE0 ∨ s._dataMode = SPI_MODE2 <;>
  by_cases hmosi : s._mosi = -1 <;>
  by_cases hmiso : s._miso = -1 <;>
  by_cases hw : lastmosi = toBool (send &&& b) <;>
  simp [hm, hmosi, hmiso, hw, pinLevel_append, pinLevel_delayEvents] <;>
  simp [pinLevel, toBool, LOW]

theorem pinLevel_sck_run (s : SIKTEC_SPI) (d : Nat)
    (lm lm' : Bool) (pairs : List (Nat × Nat)) (evs : List Event)
    (h : BitRun s d lm pairs evs lm') :
    ∀ l : Option Bool, pinLevel s._sck l evs = if pairs = [] then l else some false := by
  induction h with
  | done lm => intro l; rfl
  | pass lm send b level pairs evs lm' _ ih =>
    intro l
    rw [pinLevel_append, pinLevel_sck_bit, ih]
    split <;> simp


theorem driveFrom_append (s : SIKTEC_SPI) (D : Drive) (a b : List Event) :
    driveFrom s D (a ++ b) = driveFrom s (driveFrom s D a) b := by
  simp [driveFrom, List.foldl_append]

theorem driveFrom_nil (s : SIKTEC_SPI) (D : Drive) : driveFrom s D [] = D := rfl

theorem driveFrom_cons (s : SIKTEC_SPI) (D : Drive) (e : Event) (es : List Event) :
    driveFrom s D (e :: es) = driveFrom s (observeDrive s D e) es := rfl

theorem driveFrom_delayEvents (s : SIKTEC_SPI) (D : Drive) (d : Nat) :
    driveFrom s D (delayEvents d) = D := by
  unfold delayEvents
  split <;> rfl

theorem observeDrive_mosi (s : SIKTEC_SPI) (D : Drive) (v : Nat) :
    observeDrive s D (Event.digitalWrite s._mosi v) = { D with pending := true } := by
  simp [observeDrive]

theorem observeDrive_sck_HIGH (s : SIKTEC_SPI) (D : Drive) (h : s._sck ≠ s._mosi) :
    observeDrive s D (Event.digitalWrite s._sck HIGH) = D := by
  simp [observeDrive, h, HIGH, LOW]

theorem observeDrive_sck_LOW (s : SIKTEC_SPI) (D : Drive) (h : s._sck ≠ s._mosi) :
    observeDrive s D (Event.digitalWrite s._sck LOW)
      = { pending := false, marks := D.marks ++ [D.pending] } := by
  simp [observeDrive, h]

theorem observeDrive_read (s : SIKTEC_SPI) (D : Drive) (p : Int) (v : Bool) :
    observeDrive s D (Event.digitalRead p v) = D := rfl

/-- One pass of the loop body, seen by the watcher of data-out writes. -/
theorem driveFrom_bit (s : SIKTEC_SPI) (d : Nat) (lm : Bool) (send b : Nat) (level : Bool)
    (marks : List Bool) (hpin : s._sck ≠ s._mosi) :
    driveFrom s ⟨false, marks⟩ (bitHead s d lm send b ++ bitTail s level)
      = ⟨false, marks ++ [decide (s._mosi ≠ -1 ∧
          ((s._dataMode = SPI_MODE0 ∨ s._dataMode = SPI_MODE2) → lm ≠ toBool (send &&& b)))]⟩ := by
  unfold bitHead bitTail
  by_cases hm : s._dataMode = SPI_MODE0 ∨ s._dataMode = SPI_MODE2 <;>
  by_cases hmosi : s._mosi = -1 <;>
  by_cases hmiso : s._miso = -1 <;>
  by_cases hw : lm = toBool (send &&& b) <;>
  simp [hm, hmosi, hmiso, hw, driveFrom_append, driveFrom_delayEvents, driveFrom_cons,
    driveFrom_nil, observeDrive_mosi, fun D => observeDrive_sck_HIGH s D hpin,
    fun D => observeDrive_sck_LOW s D hpin, observeDrive_read]

theorem driveFrom_run (s : SIKTEC_SPI) (d : Nat) (hpin : s._sck ≠ s._mosi)
    (lm lm' : Bool) (pairs : List (Nat × Nat)) (evs : List Event)
    (h : BitRun s d lm pairs evs lm') :
    ∀ marks : List Bool,
      driveFrom s ⟨false, marks⟩ evs = ⟨false, marks ++ writtenBits s lm pairs⟩ := by
  induction h with
  | done lm => intro marks; simp [driveFrom_nil, writtenBits]
  | pass lm send b level pairs evs lm' _ ih =>
    intro marks
    rw [driveFrom_append, driveFrom_bit s d lm send b level marks hpin, ih]
    simp [writtenBits]

theorem pinWrites_delayEvents (pin : Int) (d : Nat) : pinWrites pin (delayEvents d) = 0 := by
  unfold delayEvents
  split <;> rfl

theorem pinWrites_nil (pin : Int) : pinWrites pin [] = 0 := rfl

theorem pinWrites_self (pin : Int) (v : Nat) (es : List Event) :
    pinWrites pin (Event.digitalWrite pin v :: es) = pinWrites pin es + 1 := by
  simp [pinWrites]

theorem pinWrites_other (pin p : Int) (v : Nat) (es : List Event) (h : p ≠ pin) :
    pinWrites pin (Event.digitalWrite p v :: es) = pinWrites pin es := by
  simp [pinWrites, h]

theorem pinWrites_read (pin p : Int) (v : Bool) (es : List Event) :
    pinWrites pin (Event.digitalRead p v :: es) = pinWrites pin es := rfl

/-- The writes of the data-out pin in one pass of the loop body. -/
theorem pinWrites_mosi_bit (s : SIKTEC_SPI) (d : Nat) (lm : Bool) (send b : Nat) (level : Bool)
    (hmosi : s._mosi ≠ -1) (hpin : s._sck ≠ s._mosi) :
    pinWrites s._mosi (bitHead s d lm send b ++ bitTail s level)
      = if s._mosi ≠ -1 ∧
          ((s._dataMode = SPI_MODE0 ∨ s._dataMode = SPI_MODE2) → lm ≠ toBool (send &&& b))
        then 1 else 0 := by
  unfold bitHead bitTail
  by_cases hm : s._dataMode = SPI_MODE0 ∨ s._dataMode = SPI_MODE2 <;>
  by_cases hmiso : s._miso = -1 <;>
  by_cases hw : lm = toBool (send &&& b) <;>
  simp [hm, hmosi, hmiso, hw, pinWrites_append, pinWrites_delayEvents, pinWrites_nil,
    pinWrites_self, pinWrites_read, pinWrites_other s._mosi s._sck _ _ hpin]

theorem pinWrites_mosi_run (s : SIKTEC_SPI) (d : Nat) (hmosi : s._mosi ≠ -1)
    (hpin : s._sck ≠ s._mosi)
    (lm lm' : Bool) (pairs : List (Nat × Nat)) (evs : List Event)
    (h : BitRun s d lm pairs evs lm') :
    pinWrites s._mosi evs = (writtenBits s lm pairs).count true := by
  induction h with
  | done lm => rfl
  | pass lm send b level pairs evs lm' _ ih =>
    rw [pinWrites_append, pinWrites_mosi_bit s d lm send b level hmosi hpin, ih]
    have hw : writtenBits s lm ((send, b) :: pairs)
        = decide (s._mosi ≠ -1 ∧
            ((s._dataMode = SPI_MODE0 ∨ s._dataMode = SPI_MODE2) → lm ≠ toBool (send &&& b)))
          :: writtenBits s (nextLast s lm send b) pairs := rfl
    rw [hw]
    by_cases hc : s._mosi ≠ -1 ∧
        ((s._dataMode = SPI_MODE0 ∨ s._dataMode = SPI_MODE2) → lm ≠ toBool (send &&& b))
    · rw [if_pos hc, decide_eq_true hc, List.count_cons_self]
      omega
    · rw [if_neg hc, decide_eq_false hc, List.count_cons_of_ne (by decide)]
      omega

/-- In data mode 0 or 2 a pass writes data-out exactly when the bit differs
from the one `lastmosi` holds. -/
theorem writtenBits_mode02 (s : SIKTEC_SPI) (hmosi : s._mosi ≠ -1)
    (hm : s._dataMode = SPI_MODE0 ∨ s._dataMode = SPI_MODE2) (pairs : List (Nat × Nat)) :
    ∀ lm : Bool, writtenBits s lm pairs
      = edges (some lm) (pairs.map (fun p => toBool (p.1 &&& p.2))) := by
  induction pairs with
  | nil => intro lm; rfl
  | cons p rest ih =>
    intro lm
    obtain ⟨send, b⟩ := p
    simp only [writtenBits, List.map_cons, edges, nextLast, hm, hmosi, ne_eq, not_false_eq_true,
      and_self, if_true, ih, true_and, forall_const]
    congr 1
    simp

/-- In the other data modes every pass writes data-out. -/
theorem writtenBits_mode13 (s : SIKTEC_SPI) (hmosi : s._mosi ≠ -1)
    (hm : ¬(s._dataMode = SPI_MODE0 ∨ s._dataMode = SPI_MODE2)) (pairs : List (Nat × Nat)) :
    ∀ lm : Bool, writtenBits s lm pairs = List.replicate pairs.length true := by
  induction pairs with
  | nil => intro lm; rfl
  | cons p rest ih =>
    intro lm
    obtain ⟨send, b⟩ := p
    simp [writtenBits, hm, hmosi, ih, List.replicate_succ]

theorem pairsOf_bits (s : SIKTEC_SPI) (bytes : List Nat) :
    (pairsOf s bytes).map (fun p => toBool (p.1 &&& p.2)) = bitsOfBytes s bytes := by
  induction bytes with
  | nil => rfl
  | cons x xs ih =>
    rw [pairsOf_cons, List.map_append, ih, bitsOfBytes_cons]
    simp [bitsOf]

theorem edges_count (bits : List Bool) :
    ∀ a : Bool, (edges (some a) bits).count true = unequalPairs (a :: bits) := by
  induction bits with
  | nil => intro a; rfl
  | cons b rest ih =>
    intro a
    simp only [edges, unequalPairs, List.count_cons, ih]
    by_cases h : a = b <;> simp [h, Nat.add_comm]

/-- Entered with `lastmosi` the negation of the first bit, the written passes
are the first one and those whose bit differs from the one before. -/
theorem edges_first (b : Bool) (rest : List Bool) :
    edges (some (!b)) (b :: rest) = edges none (b :: rest) := by
  cases b <;> simp [edges]

theorem edges_none_count (b : Bool) (rest : List Bool) :
    (edges none (b :: rest)).count true = 1 + unequalPairs (b :: rest) := by
  simp only [edges, List.count_cons, edges_count]
  simp [Nat.add_comm]


theorem ClockAfter_nil (s : SIKTEC_SPI) : ClockAfter s 0 [] := by
  intro l
  rfl

theorem ClockAfter_append (s : SIKTEC_SPI) (n1 n2 : Nat) (e1 e2 : List Event)
    (h1 : ClockAfter s n1 e1) (h2 : ClockAfter s n2 e2) : ClockAfter s (n1 + n2) (e1 ++ e2) := by
  intro l
  rw [pinLevel_append, h1 l, h2]
  by_cases a : n1 = 0 <;> by_cases b : n2 = 0 <;> simp [a, b]

theorem ClockAfter_of_no_writes (s : SIKTEC_SPI) (evs : List Event)
    (h : pinWrites s._sck evs = 0) : ClockAfter s 0 evs := by
  intro l
  rw [pinLevel_of_no_writes s._sck evs l h]
  rfl

theorem ClockAfter_csEvents (s : SIKTEC_SPI) (val : Nat) (hcs : s._cs ≠ s._sck) :
    ClockAfter s 0 (csEvents s val) := by
  apply ClockAfter_of_no_writes
  unfold csEvents
  split
  · exact pinWrites_other s._sck s._cs val [] hcs
  · rfl

/-- Framing with a chip-select that is not the clock pin leaves the clock
where the transfers left it. -/
theorem ClockAfter_framed (s : SIKTEC_SPI) (n : Nat) (evs : List Event) (hcs : s._cs ≠ s._sck)
    (h : ClockAfter s n evs) : ClockAfter s n (framed s evs) := by
  have := ClockAfter_append s _ _ _ _ (ClockAfter_append s _ _ _ _ (ClockAfter_append s _ _ _ _
    (ClockAfter_append s _ _ _ _
      (ClockAfter_of_no_writes s _ (pinWrites_beginEvents s s._sck))
      (ClockAfter_csEvents s LOW hcs)) h)
    (ClockAfter_csEvents s HIGH hcs))
    (ClockAfter_of_no_writes s _ (pinWrites_endEvents s s._sck))
  simpa [framed] using this

/-- The software transfer leaves the clock LOW when it sent a byte. -/
theorem transfer_clock (s : SIKTEC_SPI) (P : Platform) (buffer : Nat → Nat) (len : Nat)
    (tr : List Event) (hsw : s._spi = false) (hfreq : 0 < s._freq) :
    ∃ (r : Transferred) (evs : List Event),
      s.transfer P buffer len tr = .ok r ∧ r.trace = tr ++ evs ∧ ClockAfter s len evs := by
  obtain ⟨r, evs, lm', h1, h2, h3⟩ := transfer_run s P buffer len tr hsw hfreq
  refine ⟨r, evs, h1, h2, ?_⟩
  intro l
  rw [pinLevel_sck_run s _ _ _ _ _ h3 l]
  have hl := pairsOf_length s ((List.range len).map buffer)
  rw [List.length_map, List.length_range] at hl
  by_cases hz : len = 0
  · have : pairsOf s ((List.range len).map buffer) = [] :=
      List.length_eq_zero.mp (by rw [hl, hz])
    rw [if_pos this, if_pos hz]
  · have : pairsOf s ((List.range len).map buffer) ≠ [] := by
      intro h
      rw [h] at hl
      simp at hl
      omega
    rw [if_neg this, if_neg hz]

theorem transfer1_clock (s : SIKTEC_SPI) (P : Platform) (send : Nat) (tr : List Event)
    (hsw : s._spi = false) (hfreq : 0 < s._freq) :
    ∃ (got : Nat) (evs : List Event),
      s.transfer1 P send tr = .ok (got, tr ++ evs) ∧ ClockAfter s 1 evs := by
  obtain ⟨r, evs, h1, h2, h3⟩ := transfer_clock s P (fun _ => send) 1 tr hsw hfreq
  refine ⟨r.buffer 0, evs, ?_, h3⟩
  unfold SIKTEC_SPI.transfer1
  rw [h1]
  simp only [h2]

theorem sendLoop_clock (s : SIKTEC_SPI) (P : Platform) (byte : Nat → Nat)
    (hsw : s._spi = false) (hfreq : 0 < s._freq) (n : Nat) :
    ∀ (i : Nat) (tr : List Event), ∃ (evs : List Event),
      sendLoop s P byte n i tr = .ok (tr ++ evs) ∧ ClockAfter s n evs := by
  induction n with
  | zero =>
    intro i tr
    exact ⟨[], by simp [sendLoop], ClockAfter_nil s⟩
  | succ n ih =>
    intro i tr
    obtain ⟨got, e1, a1, a2⟩ := transfer1_clock s P (byte i) tr hsw hfreq
    obtain ⟨e2, b1, b2⟩ := ih (i + 1) (tr ++ e1)
    refine ⟨e1 ++ e2, ?_, ?_⟩
    · simp only [sendLoop, a1, b1, List.append_assoc]
    · have := ClockAfter_append s 1 n e1 e2 a2 b2
      rwa [Nat.add_comm] at this

theorem readLoop_clock (s : SIKTEC_SPI) (P : Platform) (read_buffer sendvalue : Nat)
    (hsw : s._spi = false) (hfreq : 0 < s._freq) (n : Nat) :
    ∀ (i : Nat) (mem : Nat → Nat) (tr : List Event), ∃ (mem' : Nat → Nat) (evs : List Event),
      readLoop s P read_buffer sendvalue n i (mem, tr) = .ok (mem', tr ++ evs) ∧
      ClockAfter s n evs := by
  induction n with
  | zero =>
    intro i mem tr
    exact ⟨mem, [], by simp [readLoop], ClockAfter_nil s⟩
  | succ n ih =>
    intro i mem tr
    obtain ⟨got, e1, a1, a2⟩ := transfer1_clock s P sendvalue tr hsw hfreq
    obtain ⟨mem', e2, b1, b2⟩ :=
      ih (i + 1) (Function.update mem (read_buffer + i) got) (tr ++ e1)
    refine ⟨mem', e1 ++ e2, ?_, ?_⟩
    · simp only [readLoop, a1, b1, List.append_assoc]
    · have := ClockAfter_append s 1 n e1 e2 a2 b2
      rwa [Nat.add_comm] at this

/-- Where the four framed operations leave the clock, in software mode. -/
theorem operations_clock (s : SIKTEC_SPI) (P : Platform) (buffer : Nat → Nat) (len : Nat)
    (prefix_buffer : Nat → Nat) (prefix_len : Nat) (invertBuffer : Bool)
    (sendvalue value times : Nat) (mem : Nat → Nat)
    (write_buffer write_len read_buffer read_len : Nat) (tr : List Event)
    (hsw : s._spi = false) (hfreq : 0 < s._freq) (hcs : s._cs ≠ s._sck) :
    (∃ evs, s.write P buffer len prefix_buffer prefix_len invertBuffer tr
          = .ok (true, tr ++ evs) ∧ ClockAfter s (prefix_len + len) evs) ∧
    (∃ r evs, s.read P buffer len sendvalue tr = .ok (r, true) ∧ r.trace = tr ++ evs ∧
        ClockAfter s len evs) ∧
    (∃ evs, s.repeated P value times prefix_buffer prefix_len tr = .ok (true, tr ++ evs) ∧
        ClockAfter s (prefix_len + times) evs) ∧
    (∃ mem' evs,
        s.write_then_read P mem write_buffer write_len read_buffer read_len sendvalue tr
          = .ok (mem', tr ++ evs, true) ∧ ClockAfter s (write_len + read_len) evs) := by
  refine ⟨?_, ?_, ?_, ?_⟩
  · cases invertBuffer with
    | true =>
      obtain ⟨e1, a1, a2⟩ := sendLoop_clock s P (fun i => complement (prefix_buffer i)) hsw hfreq
        prefix_len 0 (csToggle s LOW (s.beginTransaction tr))
      obtain ⟨e2, b1, b2⟩ := sendLoop_clock s P (fun i => complement (buffer i)) hsw hfreq
        len 0 (csToggle s LOW (s.beginTransaction tr) ++ e1)
      refine ⟨framed s (e1 ++ e2), ?_, ClockAfter_framed s _ _ hcs (ClockAfter_append s _ _ _ _ a2 b2)⟩
      unfold SIKTEC_SPI.write
      simp only [if_true, a1, b1]
      simp only [csToggle_eq, beginTransaction_eq, endTransaction_eq, framed, List.append_assoc]
    | false =>
      obtain ⟨e1, a1, a2⟩ := sendLoop_clock s P prefix_buffer hsw hfreq
        prefix_len 0 (csToggle s LOW (s.beginTransaction tr))
      obtain ⟨e2, b1, b2⟩ := sendLoop_clock s P buffer hsw hfreq
        len 0 (csToggle s LOW (s.beginTransaction tr) ++ e1)
      refine ⟨framed s (e1 ++ e2), ?_, ClockAfter_framed s _ _ hcs (ClockAfter_append s _ _ _ _ a2 b2)⟩
      unfold SIKTEC_SPI.write
      simp only [Bool.false_eq_true, if_false, a1, b1]
      simp only [csToggle_eq, beginTransaction_eq, endTransaction_eq, framed, List.append_assoc]
  · obtain ⟨r, evs, h1, h2, h3⟩ := transfer_clock s P (memset buffer sendvalue len) len
      (csToggle s LOW (s.beginTransaction tr)) hsw hfreq
    refine ⟨{ buffer := r.buffer, trace := s.endTransaction (csToggle s HIGH r.trace),
               accesses := (List.range len).map (fun j => Access.store j (sendvalue % 256))
                 ++ r.accesses }, framed s evs, ?_, ?_, ClockAfter_framed s _ _ hcs h3⟩
    · unfold SIKTEC_SPI.read
      simp only [h1]
    · simp only [h2, csToggle_eq, beginTransaction_eq, endTransaction_eq, framed,
        List.append_assoc]
  · obtain ⟨e1, a1, a2⟩ := sendLoop_clock s P prefix_buffer hsw hfreq
      prefix_len 0 (csToggle s LOW (s.beginTransaction tr))
    obtain ⟨e2, b1, b2⟩ := sendLoop_clock s P (fun _ => value) hsw hfreq
      times 0 (csToggle s LOW (s.beginTransaction tr) ++ e1)
    refine ⟨framed s (e1 ++ e2), ?_, ClockAfter_framed s _ _ hcs (ClockAfter_append s _ _ _ _ a2 b2)⟩
    unfold SIKTEC_SPI.repeated
    simp only [a1, b1]
    simp only [csToggle_eq, beginTransaction_eq, endTransaction_eq, framed, List.append_assoc]
  · obtain ⟨e1, a1, a2⟩ := sendLoop_clock s P (fun i => mem (write_buffer + i)) hsw hfreq
      write_len 0 (csToggle s LOW (s.beginTransaction tr))
    obtain ⟨mem', e2, b1, b2⟩ := readLoop_clock s P read_buffer sendvalue hsw hfreq
      read_len 0 mem (csToggle s LOW (s.beginTransaction tr) ++ e1)
    refine ⟨mem', framed s (e1 ++ e2), ?_,
      ClockAfter_framed s _ _ hcs (ClockAfter_append s _ _ _ _ a2 b2)⟩
    unfold SIKTEC_SPI.write_then_read
    simp only [a1, b1]
    simp only [csToggle_eq, beginTransaction_eq, endTransaction_eq, framed, List.append_assoc]

/-- The two phases of `write_then_read` for a wired handle: the bytes of
`write_buffer` then `read_len` fillers are transmitted; where the received
bytes reach the caller (`Listens`), `read_buffer[i]` holds the byte received
during transfer `i` of the second phase; every address outside
`read_buffer[0 .. read_len)` keeps its content. -/
theorem write_then_read_general (s : SIKTEC_SPI) (P : Platform) (mem : Nat → Nat)
    (write_buffer write_len read_buffer read_len fill_value : Nat) (tr : List Event)
    (hw : Wired s) (hmem : ∀ j, j < write_len → mem (write_buffer + j) < 256)
    (hfill : fill_value < 256) :
    ∃ mem' evs,
      s.write_then_read P mem write_buffer write_len read_buffer read_len fill_value tr
        = .ok (mem', tr ++ evs, true) ∧
      transmitted s evs = (List.range write_len).map (fun i => mem (write_buffer + i))
        ++ List.replicate read_len fill_value ∧
      (Listens s P →
        (received s evs).length = write_len + read_len ∧
        ∀ i, i < read_len →
          (received s evs).getD (write_len + i) 0 = mem' (read_buffer + i)) ∧
      (∀ a, (∀ k, k < read_len → a ≠ read_buffer + k) → mem' a = mem a) ∧
      ((∀ j k, j < write_len → k < read_len → write_buffer + j ≠ read_buffer + k) →
        ∀ j, j < write_len → mem' (write_buffer + j) = mem (write_buffer + j)) := by
  obtain ⟨mem', evs, h1, _, h3, h4, h5⟩ :=
    write_then_read_spec s P mem write_buffer write_len read_buffer read_len fill_value tr
      (Wired_freq s hw)
  refine ⟨mem', framed s evs, h1, ?_, ?_, h5, ?_⟩
  · apply transmitted_of_Sends s _ _ _ (Sends_framed s evs _ (Wired_cs s hw) (h3 (Wired_sends s hw)))
    intro x hx
    rcases List.mem_append.mp hx with h | h
    · exact range_map_lt _ _ hmem x h
    · rw [List.eq_of_mem_replicate h]
      exact hfill
  · intro hmiso
    obtain ⟨bytes, hl, hr⟩ := h4 hmiso
    rw [received_of_Receives s _ _ (Receives_framed s evs _ hr)]
    refine ⟨by simp [hl], ?_⟩
    intro i hi
    rw [List.getD_eq_getElem?_getD, List.getElem?_append_right (by omega)]
    simp [hl, hi]
  · intro hdis j hj
    exact h5 _ (fun k hk => hdis j k hj hk)

/-- What `write_and_read` does for every byte, in either mode and any build:
the events it adds are chip-select LOW (if control is enabled), the events of
the one call `transfer(byte)`, chip-select HIGH (if control is enabled); no
begin-transaction or end-transaction event is among them; in hardware mode
the transfer is one peripheral transfer of the one byte, and the value
returned is the byte that came back except in the `STM32` build, where it is
`byte` itself; where the received bytes reach the caller (`Listens`) the
value returned is the byte received. -/
theorem write_and_read_general (s : SIKTEC_SPI) (P : Platform) (byte : Nat)
    (tr : List Event) (hfreq : s._spi = false → 0 < s._freq) (hbyte : byte < 256) :
    ∃ got evs,
      s.write_and_read P byte tr
        = .ok (got, tr ++ ((if s._cs_control then [Event.digitalWrite s._cs LOW] else [])
            ++ evs ++ (if s._cs_control then [Event.digitalWrite s._cs HIGH] else []))) ∧
      s.transfer1 P byte (tr ++ (if s._cs_control then [Event.digitalWrite s._cs LOW] else []))
        = .ok (got, tr ++ (if s._cs_control then [Event.digitalWrite s._cs LOW] else [])
            ++ evs) ∧
      transactionEvents ((if s._cs_control then [Event.digitalWrite s._cs LOW] else [])
        ++ evs ++ (if s._cs_control then [Event.digitalWrite s._cs HIGH] else [])) = 0 ∧
      (s._spi = true → ∃ back, evs = [Event.spiTransfer [byte] [back]] ∧
        (P.build ≠ Build.STM32 → got = back) ∧ (P.build = Build.STM32 → got = byte)) ∧
      ((s._spi = false → s._mosi ≠ -1 ∧ s._sck ≠ s._mosi) → transmitted s evs = [byte]) ∧
      (Listens s P → received s evs = [got]) := by
  obtain ⟨got, evs, h1, h2, h3, h4, _⟩ := transfer1_spec s P byte (csToggle s LOW tr) hfreq
  have hcsL : (if s._cs_control then [Event.digitalWrite s._cs LOW] else []) = csEvents s LOW := rfl
  have hcsH : (if s._cs_control then [Event.digitalWrite s._cs HIGH] else []) = csEvents s HIGH :=
    rfl
  rw [hcsL, hcsH]
  refine ⟨got, evs, ?_, ?_, ?_, ?_, ?_, ?_⟩
  · unfold SIKTEC_SPI.write_and_read
    simp only [h1]
    simp only [csToggle_eq, List.append_assoc]
  · rw [← csToggle_eq, h1]
  · rw [transactionEvents_append, transactionEvents_append, transactionEvents_csEvents,
      transactionEvents_csEvents, transactionEvents_transfer s evs h2]
  · intro hs
    by_cases hb : P.build = Build.STM32
    · rw [transfer1_stm32 s P byte _ hs hb] at h1
      injection h1 with h1
      injection h1 with ha hb'
      refine ⟨_, (List.append_cancel_left hb').symm, fun h => absurd hb h, fun _ => ha.symm⟩
    · rw [transfer1_hard s P byte _ hs hb] at h1
      injection h1 with h1
      injection h1 with ha hb'
      refine ⟨_, (List.append_cancel_left hb').symm, fun _ => ha.symm, fun h => absurd h hb⟩
  · intro h
    apply transmitted_of_Sends s evs _ _ (h3 h)
    intro x hx
    rw [List.mem_singleton.mp hx]
    exact hbyte
  · intro h
    exact received_of_Receives s evs _ (h4 h)

/-! ## Properties of the operations -/

/-- C1. Loopback round trip: a software handle with data-out and data-in pins
(the clock on another pin than data-out) and a positive frequency, on a
platform where every read of data-in finds the level last written to data-out:
`transfer(buffer, len)` returns and leaves every byte of `buffer` as it was,
for either bit order, every data mode, every buffer of bytes and every `len`. -/
theorem transfer_loopback (s : SIKTEC_SPI) (P : Platform) (buffer : Nat → Nat) (len : Nat)
    (tr : List Event)
    (hsw : s._spi = false) (hmosi : s._mosi ≠ -1) (hmiso : s._miso ≠ -1)
    (hfreq : 0 < s._freq) (hpin : s._sck ≠ s._mosi)
    (hloop : Loopback s P) (hbytes : ∀ j, j < len → buffer j < 256) :
    ∃ r, s.transfer P buffer len tr = .ok r ∧ ∀ j, r.buffer j = buffer j := by
  obtain ⟨st', hst', hbuf'⟩ := byteLoop_loopback s P (((1000000 / s._freq) / 2) % 256)
    hmosi hmiso hpin hloop len 0
    { reply := 0, lastmosi := !(toBool (buffer 0 &&& startbit s)), buffer := buffer,
      trace := tr, accesses := [Access.load 0] }
    (by intro j _ hj; exact hbytes j (by omega))
    (by intro _; right; simp)
  refine ⟨{ buffer := st'.buffer, trace := st'.trace, accesses := st'.accesses }, ?_, ?_⟩
  · unfold SIKTEC_SPI.transfer
    simp only [hsw, bitdelay_ok s hfreq, hst']
    simp
  · intro j
    simp [hbuf']

/-- C1 at mode 0, MSB first, 1 MHz, buffer `[0xA5]` on the loopback platform. -/
theorem transfer_loopback_witness :
    ∃ r, (demoSoft SIKSPI_BITORDER_MSBFIRST SPI_MODE0).transfer
        (loopbackPlatform (demoSoft SIKSPI_BITORDER_MSBFIRST SPI_MODE0)) (fun _ => 0xA5) 1 []
          = .ok r ∧ ∀ j, r.buffer j = (fun _ => 0xA5) j :=
  transfer_loopback (demoSoft SIKSPI_BITORDER_MSBFIRST SPI_MODE0)
    (loopbackPlatform (demoSoft SIKSPI_BITORDER_MSBFIRST SPI_MODE0)) (fun _ => 0xA5) 1 []
    rfl (by decide) (by decide) (by decide) (by decide)
    (by intro hist v h; simp [loopbackPlatform, h])
    (by intro j _; show (0xA5 : Nat) < 256; decide)

/-- C4. `write` with inversion: for a wired handle (hardware, or software with
a data-out pin), any platform, any buffer and prefix of bytes,
`write(buf, len, prefix, plen, invert)` returns true and transmits exactly
`plen + len` bytes: with `invert` the bytes of the prefix then of `buf`, each
XOR `0xFF`; without it the same bytes unchanged. -/
theorem write_transmits (s : SIKTEC_SPI) (P : Platform) (buffer : Nat → Nat) (len : Nat)
    (prefix_buffer : Nat → Nat) (prefix_len : Nat) (invertBuffer : Bool) (tr : List Event)
    (hw : Wired s) (hbuf : ∀ j, j < len → buffer j < 256)
    (hpre : ∀ j, j < prefix_len → prefix_buffer j < 256) :
    ∃ evs, s.write P buffer len prefix_buffer prefix_len invertBuffer tr = .ok (true, tr ++ evs) ∧
      (transmitted s evs).length = prefix_len + len ∧
      transmitted s evs =
        (if invertBuffer = true then
          ((List.range prefix_len).map prefix_buffer ++ (List.range len).map buffer).map
            (fun b => b ^^^ 0xFF)
        else (List.range prefix_len).map prefix_buffer ++ (List.range len).map buffer) := by
  obtain ⟨evs, h1, _, h3⟩ :=
    write_spec s P buffer len prefix_buffer prefix_len invertBuffer tr (Wired_freq s hw)
  have hs := Sends_framed s evs _ (Wired_cs s hw) (h3 (Wired_sends s hw))
  have hall : ∀ x ∈ (List.range prefix_len).map prefix_buffer ++ (List.range len).map buffer,
      x < 256 := by
    intro x hx
    rcases List.mem_append.mp hx with h | h
    · exact range_map_lt _ _ hpre x h
    · exact range_map_lt _ _ hbuf x h
  have heq : transmitted s (framed s evs) =
      (if invertBuffer = true then
        ((List.range prefix_len).map prefix_buffer ++ (List.range len).map buffer).map
          (fun b => b ^^^ 0xFF)
      else (List.range prefix_len).map prefix_buffer ++ (List.range len).map buffer) := by
    cases invertBuffer with
    | true =>
      simp only [if_true] at hs ⊢
      rw [← map_complement _ hall, List.map_append, List.map_map, List.map_map]
      apply transmitted_of_Sends s _ _ _ hs
      intro x hx
      rcases List.mem_append.mp hx with h | h <;>
      · rw [List.mem_map] at h
        obtain ⟨j, _, rfl⟩ := h
        exact complement_lt _
    | false =>
      simp only [Bool.false_eq_true, if_false] at hs ⊢
      exact transmitted_of_Sends s _ _ hall hs
  refine ⟨framed s evs, h1, ?_, heq⟩
  rw [heq]
  cases invertBuffer <;> simp

/-- C4 at a software handle, mode 1, LSB first: two bytes after a one-byte
prefix, inverted. -/
theorem write_transmits_witness :
    ∃ evs, (demoSoft SIKSPI_BITORDER_LSBFIRST SPI_MODE1).write togglePlatform
        (fun j => 0x10 + j) 2 (fun _ => 0x0F) 1 true [] = .ok (true, [] ++ evs) ∧
      (transmitted (demoSoft SIKSPI_BITORDER_LSBFIRST SPI_MODE1) evs).length = 1 + 2 ∧
      transmitted (demoSoft SIKSPI_BITORDER_LSBFIRST SPI_MODE1) evs =
        (if true = true then
          ((List.range 1).map (fun _ => 0x0F) ++ (List.range 2).map (fun j => 0x10 + j)).map
            (fun b => b ^^^ 0xFF)
        else (List.range 1).map (fun _ => 0x0F) ++ (List.range 2).map (fun j => 0x10 + j)) :=
  write_transmits (demoSoft SIKSPI_BITORDER_LSBFIRST SPI_MODE1) togglePlatform
    (fun j => 0x10 + j) 2 (fun _ => 0x0F) 1 true []
    (fun _ => ⟨by decide, by decide, by decide, by decide, by decide⟩)
    (by intro j hj; show 0x10 + j < 256; omega)
    (by intro j _; show (0x0F : Nat) < 256; decide)

/-- C5. In the `STM32` build the second phase of `write_then_read` stores the
filler, not what was received: on the hardware handle, with `write_len = 3`,
`read_len = 2` and the filler `0xFF`, the peripheral hands back the byte 1 in
each of the five transfers, the three write bytes and two fillers are
transmitted, and `read_buffer` ends as `[0xFF, 0xFF]`; the generic build
stores `[1, 1]`. -/
theorem write_then_read_stores_filler_on_stm32 :
    (match demoHard.write_then_read stm32Platform (fun j => 0x20 + j) 0 3 8 2 0xFF [] with
      | .ok (mem', tr, _) => ([mem' 8, mem' 9], hwSent tr, hwReceived tr)
      | .error _ => ([], [], []))
      = ([0xFF, 0xFF], [0x20, 0x21, 0x22, 0xFF, 0xFF], [1, 1, 1, 1, 1]) ∧
    (match demoHard.write_then_read togglePlatform (fun j => 0x20 + j) 0 3 8 2 0xFF [] with
      | .ok (mem', tr, _) => ([mem' 8, mem' 9], hwSent tr, hwReceived tr)
      | .error _ => ([], [], []))
      = ([1, 1], [0x20, 0x21, 0x22, 0xFF, 0xFF], [1, 1, 1, 1, 1]) := by
  decide

/-- C6. `repeated` transmits an exact count: for a wired handle, any platform,
any byte `value`, any `times` and any prefix of bytes, `repeated(value, times,
prefix, prefix_len)` returns true and transmits exactly `prefix_len + times`
bytes: the prefix in order, then `times` copies of `value`; in software mode
that is `8 * (prefix_len + times)` clock pulses. -/
theorem repeated_transmits (s : SIKTEC_SPI) (P : Platform) (value times : Nat)
    (prefix_buffer : Nat → Nat) (prefix_len : Nat) (tr : List Event)
    (hw : Wired s) (hval : value < 256)
    (hpre : ∀ j, j < prefix_len → prefix_buffer j < 256) :
    ∃ evs, s.repeated P value times prefix_buffer prefix_len tr = .ok (true, tr ++ evs) ∧
      transmitted s evs = (List.range prefix_len).map prefix_buffer ++ List.replicate times value ∧
      (transmitted s evs).length = prefix_len + times ∧
      (s._spi = false → (line s evs).bits.length = 8 * (prefix_len + times)) := by
  obtain ⟨evs, h1, _, h3⟩ :=
    repeated_spec s P value times prefix_buffer prefix_len tr (Wired_freq s hw)
  have hs := Sends_framed s evs _ (Wired_cs s hw) (h3 (Wired_sends s hw))
  have heq : transmitted s (framed s evs)
      = (List.range prefix_len).map prefix_buffer ++ List.replicate times value := by
    apply transmitted_of_Sends s _ _ _ hs
    intro x hx
    rcases List.mem_append.mp hx with h | h
    · exact range_map_lt _ _ hpre x h
    · rw [List.eq_of_mem_replicate h]
      exact hval
  refine ⟨framed s evs, h1, heq, ?_, ?_⟩
  · rw [heq]
    simp
  · intro hsw
    unfold Sends at hs
    rw [if_neg (by simp [hsw])] at hs
    unfold line
    rw [hs, List.nil_append, bitsOfBytes_length]
    simp

/-- C6 at `times = 5` with no prefix on a software handle: 5 bytes, 40 clock pulses. -/
theorem repeated_transmits_witness :
    ∃ evs, (demoSoft SIKSPI_BITORDER_MSBFIRST SPI_MODE0).repeated togglePlatform 0x3C 5
        (fun _ => 0) 0 [] = .ok (true, [] ++ evs) ∧
      transmitted (demoSoft SIKSPI_BITORDER_MSBFIRST SPI_MODE0) evs
        = (List.range 0).map (fun _ => 0) ++ List.replicate 5 0x3C ∧
      (transmitted (demoSoft SIKSPI_BITORDER_MSBFIRST SPI_MODE0) evs).length = 0 + 5 ∧
      ((demoSoft SIKSPI_BITORDER_MSBFIRST SPI_MODE0)._spi = false →
        (line (demoSoft SIKSPI_BITORDER_MSBFIRST SPI_MODE0) evs).bits.length = 8 * (0 + 5)) :=
  repeated_transmits (demoSoft SIKSPI_BITORDER_MSBFIRST SPI_MODE0) togglePlatform 0x3C 5
    (fun _ => 0) 0 []
    (fun _ => ⟨by decide, by decide, by decide, by decide, by decide⟩)
    (by decide) (by intro j hj; omega)

/-- C7. Transaction framing order: with chip-select control enabled (and, in
software mode, a positive frequency and chip-select on another pin than clock
and data-out), each of `write`, `read`, `write_then_read` and `repeated`
returns and adds to the trace exactly: begin-transaction (hardware mode only),
chip-select LOW, transfer events, chip-select HIGH, end-transaction (hardware
mode only); no transfer event writes chip-select, and chip-select is HIGH at
the end. -/
theorem framing_order (s : SIKTEC_SPI) (P : Platform) (buffer : Nat → Nat) (len : Nat)
    (prefix_buffer : Nat → Nat) (prefix_len : Nat) (invertBuffer : Bool)
    (sendvalue value times : Nat) (mem : Nat → Nat)
    (write_buffer write_len read_buffer read_len : Nat) (tr : List Event) (l : Option Bool)
    (hctl : s._cs_control = true) (hfreq : s._spi = false → 0 < s._freq)
    (hcs : s._spi = false → s._cs ≠ s._sck ∧ s._cs ≠ s._mosi) :
    (∃ evs, s.write P buffer len prefix_buffer prefix_len invertBuffer tr
          = .ok (true, tr ++ inFrame s evs) ∧
        evs.all (isTransferEvent s) = true ∧ pinWrites s._cs evs = 0 ∧
        pinLevel s._cs l (tr ++ inFrame s evs) = some true) ∧
    (∃ r evs, s.read P buffer len sendvalue tr = .ok (r, true) ∧
        r.trace = tr ++ inFrame s evs ∧
        evs.all (isTransferEvent s) = true ∧ pinWrites s._cs evs = 0 ∧
        pinLevel s._cs l r.trace = some true) ∧
    (∃ mem' evs,
        s.write_then_read P mem write_buffer write_len read_buffer read_len sendvalue tr
          = .ok (mem', tr ++ inFrame s evs, true) ∧
        evs.all (isTransferEvent s) = true ∧ pinWrites s._cs evs = 0 ∧
        pinLevel s._cs l (tr ++ inFrame s evs) = some true) ∧
    (∃ evs, s.repeated P value times prefix_buffer prefix_len tr
          = .ok (true, tr ++ inFrame s evs) ∧
        evs.all (isTransferEvent s) = true ∧ pinWrites s._cs evs = 0 ∧
        pinLevel s._cs l (tr ++ inFrame s evs) = some true) := by
  refine ⟨?_, ?_, ?_, ?_⟩
  · obtain ⟨evs, h1, h2, _⟩ :=
      write_spec s P buffer len prefix_buffer prefix_len invertBuffer tr hfreq
    rw [framed_eq_inFrame s evs hctl] at h1
    exact ⟨evs, h1, h2, pinWrites_cs_transfer s evs hcs h2, inFrame_level s tr evs l⟩
  · obtain ⟨r, evs, h1, h2, h3, _⟩ := read_spec s P buffer len sendvalue tr hfreq
    rw [framed_eq_inFrame s evs hctl] at h2
    refine ⟨r, evs, h1, h2, h3, pinWrites_cs_transfer s evs hcs h3, ?_⟩
    rw [h2]
    exact inFrame_level s tr evs l
  · obtain ⟨mem', evs, h1, h2, _⟩ :=
      write_then_read_spec s P mem write_buffer write_len read_buffer read_len sendvalue tr hfreq
    rw [framed_eq_inFrame s evs hctl] at h1
    exact ⟨mem', evs, h1, h2, pinWrites_cs_transfer s evs hcs h2, inFrame_level s tr evs l⟩
  · obtain ⟨evs, h1, h2, _⟩ :=
      repeated_spec s P value times prefix_buffer prefix_len tr hfreq
    rw [framed_eq_inFrame s evs hctl] at h1
    exact ⟨evs, h1, h2, pinWrites_cs_transfer s evs hcs h2, inFrame_level s tr evs l⟩

/-- C7 at the hardware handle: each operation on two bytes, from the empty trace. -/
theorem framing_order_witness :
    (∃ evs, demoHard.write togglePlatform (fun j => j) 2 (fun j => j) 1 false []
          = .ok (true, [] ++ inFrame demoHard evs) ∧
        evs.all (isTransferEvent demoHard) = true ∧ pinWrites demoHard._cs evs = 0 ∧
        pinLevel demoHard._cs none ([] ++ inFrame demoHard evs) = some true) ∧
    (∃ r evs, demoHard.read togglePlatform (fun j => j) 2 0xFF [] = .ok (r, true) ∧
        r.trace = [] ++ inFrame demoHard evs ∧
        evs.all (isTransferEvent demoHard) = true ∧ pinWrites demoHard._cs evs = 0 ∧
        pinLevel demoHard._cs none r.trace = some true) ∧
    (∃ mem' evs,
        demoHard.write_then_read togglePlatform (fun j => j) 0 3 8 2 0xFF []
          = .ok (mem', [] ++ inFrame demoHard evs, true) ∧
        evs.all (isTransferEvent demoHard) = true ∧ pinWrites demoHard._cs evs = 0 ∧
        pinLevel demoHard._cs none ([] ++ inFrame demoHard evs) = some true) ∧
    (∃ evs, demoHard.repeated togglePlatform 7 5 (fun j => j) 1 []
          = .ok (true, [] ++ inFrame demoHard evs) ∧
        evs.all (isTransferEvent demoHard) = true ∧ pinWrites demoHard._cs evs = 0 ∧
        pinLevel demoHard._cs none ([] ++ inFrame demoHard evs) = some true) :=
  framing_order demoHard togglePlatform (fun j => j) 2 (fun j => j) 1 false 0xFF 7 5
    (fun j => j) 0 3 8 2 [] none rfl (by decide) (by decide)

/-- C8. Chip-select is left alone when control is disabled: after
`disableCsToggle()`, on a handle whose chip-select pin is not its clock or
data-out pin (positive frequency in software mode), `write`, `read`,
`repeated`, `write_then_read` and `write_and_read` return, never write the
chip-select pin, and leave its recorded level as it was before the call. -/
theorem cs_untouched_when_disabled (s : SIKTEC_SPI) (P : Platform) (buffer : Nat → Nat)
    (len : Nat) (prefix_buffer : Nat → Nat) (prefix_len : Nat) (invertBuffer : Bool)
    (sendvalue value times : Nat) (mem : Nat → Nat)
    (write_buffer write_len read_buffer read_len byte : Nat) (tr : List Event)
    (l : Option Bool)
    (hfreq : s._spi = false → 0 < s._freq)
    (hcs : s._spi = false → s._cs ≠ s._sck ∧ s._cs ≠ s._mosi) :
    (∃ evs, s.disableCsToggle.write P buffer len prefix_buffer prefix_len invertBuffer tr
          = .ok (true, tr ++ evs) ∧
        pinWrites s._cs evs = 0 ∧ pinLevel s._cs l (tr ++ evs) = pinLevel s._cs l tr) ∧
    (∃ r evs, s.disableCsToggle.read P buffer len sendvalue tr = .ok (r, true) ∧
        r.trace = tr ++ evs ∧
        pinWrites s._cs evs = 0 ∧ pinLevel s._cs l r.trace = pinLevel s._cs l tr) ∧
    (∃ evs, s.disableCsToggle.repeated P value times prefix_buffer prefix_len tr
          = .ok (true, tr ++ evs) ∧
        pinWrites s._cs evs = 0 ∧ pinLevel s._cs l (tr ++ evs) = pinLevel s._cs l tr) ∧
    (∃ mem' evs,
        s.disableCsToggle.write_then_read P mem write_buffer write_len read_buffer read_len
            sendvalue tr = .ok (mem', tr ++ evs, true) ∧
        pinWrites s._cs evs = 0 ∧ pinLevel s._cs l (tr ++ evs) = pinLevel s._cs l tr) ∧
    (∃ got evs, s.disableCsToggle.write_and_read P byte tr = .ok (got, tr ++ evs) ∧
        pinWrites s._cs evs = 0 ∧ pinLevel s._cs l (tr ++ evs) = pinLevel s._cs l tr) := by
  have hoff : s.disableCsToggle._cs_control = false := rfl
  have hframe : ∀ evs, evs.all (isTransferEvent s.disableCsToggle) = true →
      pinWrites s._cs (framed s.disableCsToggle evs) = 0 := by
    intro evs h
    rw [framed_no_control _ evs hoff, pinWrites_append, pinWrites_append,
      pinWrites_beginEvents, pinWrites_endEvents, Nat.zero_add, Nat.add_zero]
    exact pinWrites_cs_transfer s.disableCsToggle evs hcs h
  have hlevel : ∀ evs, pinWrites s._cs evs = 0 →
      pinLevel s._cs l (tr ++ evs) = pinLevel s._cs l tr := by
    intro evs h
    rw [pinLevel_append, pinLevel_of_no_writes s._cs evs _ h]
  refine ⟨?_, ?_, ?_, ?_, ?_⟩
  · obtain ⟨evs, h1, h2, _⟩ := write_spec s.disableCsToggle P buffer len prefix_buffer
      prefix_len invertBuffer tr hfreq
    exact ⟨_, h1, hframe evs h2, hlevel _ (hframe evs h2)⟩
  · obtain ⟨r, evs, h1, h2, h3, _⟩ := read_spec s.disableCsToggle P buffer len sendvalue tr hfreq
    refine ⟨r, _, h1, h2, hframe evs h3, ?_⟩
    rw [h2]
    exact hlevel _ (hframe evs h3)
  · obtain ⟨evs, h1, h2, _⟩ := repeated_spec s.disableCsToggle P value times prefix_buffer
      prefix_len tr hfreq
    exact ⟨_, h1, hframe evs h2, hlevel _ (hframe evs h2)⟩
  · obtain ⟨mem', evs, h1, h2, _⟩ := write_then_read_spec s.disableCsToggle P mem write_buffer
      write_len read_buffer read_len sendvalue tr hfreq
    exact ⟨mem', _, h1, hframe evs h2, hlevel _ (hframe evs h2)⟩
  · obtain ⟨got, evs, h1, h2, _⟩ := write_and_read_spec s.disableCsToggle P byte tr hfreq
    have hw : pinWrites s._cs (csEvents s.disableCsToggle LOW ++ evs
        ++ csEvents s.disableCsToggle HIGH) = 0 := by
      have hc : ∀ v, csEvents s.disableCsToggle v = [] := by
        intro v
        simp [csEvents, hoff]
      rw [hc, hc, List.nil_append, List.append_nil]
      exact pinWrites_cs_transfer s.disableCsToggle evs hcs h2
    exact ⟨got, _, h1, hw, hlevel _ hw⟩

/-- C8 at a software handle, mode 0, after a trace that left chip-select LOW. -/
theorem cs_untouched_when_disabled_witness :
    (∃ evs, (demoSoft SIKSPI_BITORDER_MSBFIRST SPI_MODE0).disableCsToggle.write togglePlatform
          (fun j => j) 2 (fun j => j) 1 true [Event.digitalWrite 10 LOW] = .ok (true,
            [Event.digitalWrite 10 LOW] ++ evs) ∧
        pinWrites (demoSoft SIKSPI_BITORDER_MSBFIRST SPI_MODE0)._cs evs = 0 ∧
        pinLevel (demoSoft SIKSPI_BITORDER_MSBFIRST SPI_MODE0)._cs none
            ([Event.digitalWrite 10 LOW] ++ evs)
          = pinLevel (demoSoft SIKSPI_BITORDER_MSBFIRST SPI_MODE0)._cs none
            [Event.digitalWrite 10 LOW]) ∧
    (∃ r evs, (demoSoft SIKSPI_BITORDER_MSBFIRST SPI_MODE0).disableCsToggle.read togglePlatform
          (fun j => j) 2 0xFF [Event.digitalWrite 10 LOW] = .ok (r, true) ∧
        r.trace = [Event.digitalWrite 10 LOW] ++ evs ∧
        pinWrites (demoSoft SIKSPI_BITORDER_MSBFIRST SPI_MODE0)._cs evs = 0 ∧
        pinLevel (demoSoft SIKSPI_BITORDER_MSBFIRST SPI_MODE0)._cs none r.trace
          = pinLevel (demoSoft SIKSPI_BITORDER_MSBFIRST SPI_MODE0)._cs none
            [Event.digitalWrite 10 LOW]) ∧
    (∃ evs, (demoSoft SIKSPI_BITORDER_MSBFIRST SPI_MODE0).disableCsToggle.repeated
          togglePlatform 7 5 (fun j => j) 1 [Event.digitalWrite 10 LOW] = .ok (true,
            [Event.digitalWrite 10 LOW] ++ evs) ∧
        pinWrites (demoSoft SIKSPI_BITORDER_MSBFIRST SPI_MODE0)._cs evs = 0 ∧
        pinLevel (demoSoft SIKSPI_BITORDER_MSBFIRST SPI_MODE0)._cs none
            ([Event.digitalWrite 10 LOW] ++ evs)
          = pinLevel (demoSoft SIKSPI_BITORDER_MSBFIRST SPI_MODE0)._cs none
            [Event.digitalWrite 10 LOW]) ∧
    (∃ mem' evs,
        (demoSoft SIKSPI_BITORDER_MSBFIRST SPI_MODE0).disableCsToggle.write_then_read
            togglePlatform (fun j => j) 0 3 8 2 0xFF [Event.digitalWrite 10 LOW]
          = .ok (mem', [Event.digitalWrite 10 LOW] ++ evs, true) ∧
        pinWrites (demoSoft SIKSPI_BITORDER_MSBFIRST SPI_MODE0)._cs evs = 0 ∧
        pinLevel (demoSoft SIKSPI_BITORDER_MSBFIRST SPI_MODE0)._cs none
            ([Event.digitalWrite 10 LOW] ++ evs)
          = pinLevel (demoSoft SIKSPI_BITORDER_MSBFIRST SPI_MODE0)._cs none
            [Event.digitalWrite 10 LOW]) ∧
    (∃ got evs, (demoSoft SIKSPI_BITORDER_MSBFIRST SPI_MODE0).disableCsToggle.write_and_read
          togglePlatform 0x42 [Event.digitalWrite 10 LOW]
          = .ok (got, [Event.digitalWrite 10 LOW] ++ evs) ∧
        pinWrites (demoSoft SIKSPI_BITORDER_MSBFIRST SPI_MODE0)._cs evs = 0 ∧
        pinLevel (demoSoft SIKSPI_BITORDER_MSBFIRST SPI_MODE0)._cs none
            ([Event.digitalWrite 10 LOW] ++ evs)
          = pinLevel (demoSoft SIKSPI_BITORDER_MSBFIRST SPI_MODE0)._cs none
            [Event.digitalWrite 10 LOW]) :=
  cs_untouched_when_disabled (demoSoft SIKSPI_BITORDER_MSBFIRST SPI_MODE0) togglePlatform
    (fun j => j) 2 (fun j => j) 1 true 0xFF 7 5 (fun j => j) 0 3 8 2 0x42
    [Event.digitalWrite 10 LOW] none (by decide) (by decide)

/-- C9. Clock idle level after `begin`: for a software handle (chip-select,
clock and the data pins that are set on different pins), either bit order:
`begin()` returns true, sets `begun`, leaves the clock pin configured as
output, LOW for data mode 0 or 1 and HIGH for data mode 2 or 3, and leaves
chip-select HIGH. -/
theorem begin_clock_idle (s : SIKTEC_SPI) (tr : List Event) (l : Option Bool)
    (m : Option Nat) (hsw : s._spi = false) (hcs : s._cs ≠ s._sck)
    (hmosi : s._mosi ≠ -1 → s._mosi ≠ s._sck ∧ s._mosi ≠ s._cs)
    (hmiso : s._miso ≠ -1 → s._miso ≠ s._sck) :
    (s.begin tr).2.2 = true ∧ (s.begin tr).1.begun = true ∧
    pinModeOf s._sck m (s.begin tr).2.1 = some OUTPUT ∧
    (s._dataMode = SPI_MODE0 ∨ s._dataMode = SPI_MODE1 →
      pinLevel s._sck l (s.begin tr).2.1 = some false) ∧
    (s._dataMode = SPI_MODE2 ∨ s._dataMode = SPI_MODE3 →
      pinLevel s._sck l (s.begin tr).2.1 = some true) ∧
    pinLevel s._cs l (s.begin tr).2.1 = some true := by
  have hcs' : s._sck ≠ s._cs := fun h => hcs h.symm
  refine ⟨rfl, rfl, ?_, ?_, ?_, ?_⟩
  · by_cases h1 : s._mosi = -1 <;> by_cases h2 : s._miso = -1 <;>
    by_cases h3 : s._dataMode = SPI_MODE0 ∨ s._dataMode = SPI_MODE1 <;>
    simp [SIKTEC_SPI.begin, beginSoftware, hsw, h1, h2, h3, pinModeOf, List.foldl_append,
      hmosi, hmiso]
  · intro h3
    by_cases h1 : s._mosi = -1 <;> by_cases h2 : s._miso = -1 <;>
    simp [SIKTEC_SPI.begin, beginSoftware, hsw, h1, h2, h3, pinLevel, List.foldl_append,
      hmosi, toBool, LOW]
  · intro h3
    have h3' : ¬(s._dataMode = SPI_MODE0 ∨ s._dataMode = SPI_MODE1) := by
      simp only [SPI_MODE0, SPI_MODE1, SPI_MODE2, SPI_MODE3] at h3 ⊢
      omega
    by_cases h1 : s._mosi = -1 <;> by_cases h2 : s._miso = -1 <;>
    simp [SIKTEC_SPI.begin, beginSoftware, hsw, h1, h2, h3', pinLevel, List.foldl_append,
      hmosi, toBool, HIGH]
  · by_cases h1 : s._mosi = -1 <;> by_cases h2 : s._miso = -1 <;>
    by_cases h3 : s._dataMode = SPI_MODE0 ∨ s._dataMode = SPI_MODE1 <;>
    simp [SIKTEC_SPI.begin, beginSoftware, hsw, h1, h2, h3, pinLevel, List.foldl_append,
      hmosi, hcs', toBool, HIGH]

/-- C9 at a software handle in data mode 2, LSB first. -/
theorem begin_clock_idle_witness :
    ((demoSoft SIKSPI_BITORDER_LSBFIRST SPI_MODE2).begin []).2.2 = true ∧
    ((demoSoft SIKSPI_BITORDER_LSBFIRST SPI_MODE2).begin []).1.begun = true ∧
    pinModeOf (demoSoft SIKSPI_BITORDER_LSBFIRST SPI_MODE2)._sck none
      ((demoSoft SIKSPI_BITORDER_LSBFIRST SPI_MODE2).begin []).2.1 = some OUTPUT ∧
    ((demoSoft SIKSPI_BITORDER_LSBFIRST SPI_MODE2)._dataMode = SPI_MODE0 ∨
        (demoSoft SIKSPI_BITORDER_LSBFIRST SPI_MODE2)._dataMode = SPI_MODE1 →
      pinLevel (demoSoft SIKSPI_BITORDER_LSBFIRST SPI_MODE2)._sck none
        ((demoSoft SIKSPI_BITORDER_LSBFIRST SPI_MODE2).begin []).2.1 = some false) ∧
    ((demoSoft SIKSPI_BITORDER_LSBFIRST SPI_MODE2)._dataMode = SPI_MODE2 ∨
        (demoSoft SIKSPI_BITORDER_LSBFIRST SPI_MODE2)._dataMode = SPI_MODE3 →
      pinLevel (demoSoft SIKSPI_BITORDER_LSBFIRST SPI_MODE2)._sck none
        ((demoSoft SIKSPI_BITORDER_LSBFIRST SPI_MODE2).begin []).2.1 = some true) ∧
    pinLevel (demoSoft SIKSPI_BITORDER_LSBFIRST SPI_MODE2)._cs none
      ((demoSoft SIKSPI_BITORDER_LSBFIRST SPI_MODE2).begin []).2.1 = some true :=
  begin_clock_idle (demoSoft SIKSPI_BITORDER_LSBFIRST SPI_MODE2) [] none none rfl
    (by decide) (by decide) (by decide)

/-- C10. No data-in pin means the buffer is untouched: for a software handle
whose data-in pin is unset (-1), positive frequency, any platform, buffer,
`len`, bit order and data mode: `transfer(buffer, len)` returns, leaves every
byte of `buffer` as it was and reads no pin; and `transfer(send)` returns
`send`. -/
theorem transfer_without_miso (s : SIKTEC_SPI) (P : Platform) (buffer : Nat → Nat)
    (len send : Nat) (tr : List Event)
    (hsw : s._spi = false) (hmiso : s._miso = -1) (hfreq : 0 < s._freq) :
    (∃ r evs, s.transfer P buffer len tr = .ok r ∧ r.trace = tr ++ evs ∧
      (∀ j, r.buffer j = buffer j) ∧ pinReads evs = 0) ∧
    (∃ evs, s.transfer1 P send tr = .ok (send, tr ++ evs) ∧ pinReads evs = 0) := by
  refine ⟨?_, ?_⟩
  · obtain ⟨r, evs, h1, h2, h3, _, _, h6, _⟩ := transfer_soft_spec s P buffer len tr hsw hfreq
    refine ⟨r, evs, h1, h2, ?_, pinReads_transfer s evs hmiso h3⟩
    intro j
    rw [(h6 hmiso).1]
  · obtain ⟨got, evs, h1, h2, _, _, h5⟩ := transfer1_spec s P send tr (fun _ => hfreq)
    rw [(h5 hsw hmiso).1] at h1
    exact ⟨evs, h1, pinReads_transfer s evs hmiso h2⟩

/-- C10 at a write-only software handle (data-in unset), mode 1, two bytes. -/
theorem transfer_without_miso_witness :
    (∃ r evs, (SIKTEC_SPI.software 10 13 (-1) 11 1000000 SIKSPI_BITORDER_MSBFIRST
          SPI_MODE1).transfer togglePlatform (fun j => 0x5A + j) 2 [] = .ok r ∧
      r.trace = [] ++ evs ∧
      (∀ j, r.buffer j = (fun j => 0x5A + j) j) ∧ pinReads evs = 0) ∧
    (∃ evs, (SIKTEC_SPI.software 10 13 (-1) 11 1000000 SIKSPI_BITORDER_MSBFIRST
          SPI_MODE1).transfer1 togglePlatform 0x5A [] = .ok (0x5A, [] ++ evs) ∧
      pinReads evs = 0) :=
  transfer_without_miso (SIKTEC_SPI.software 10 13 (-1) 11 1000000 SIKSPI_BITORDER_MSBFIRST
    SPI_MODE1) togglePlatform (fun j => 0x5A + j) 2 0x5A [] rfl rfl (by decide)

/-- C11. The half-period delay is cut to 8 bits: at frequency 1000 the half
period `(1000000 / 1000) / 2` is 500, but `bitdelay_us` is 244 and every one
of the 16 busy-waits of a one-byte transfer lasts 244 microseconds; at
frequency 1950 the half period is 256, `bitdelay_us` is 0 and no busy-wait is
made at all. -/
theorem bitdelay_cut_to_8_bits :
    (1000000 / 1000) / 2 = 500 ∧
    bitdelay (demoFreq 1000) = .ok 244 ∧
    (match (demoFreq 1000).transfer togglePlatform (fun _ => 0xA5) 1 [] with
      | .ok r => delays r.trace
      | .error _ => []) = List.replicate 16 244 ∧
    (1000000 / 1950) / 2 = 256 ∧
    bitdelay (demoFreq 1950) = .ok 0 ∧
    (match (demoFreq 1950).transfer togglePlatform (fun _ => 0xA5) 1 [] with
      | .ok r => delays r.trace
      | .error _ => [0]) = [] :=
  ⟨by decide, rfl, by decide, by decide, rfl, by decide⟩

/-- C12. Frequency 0 stops the software transfer: line 162 divides by the
frequency before any byte is sent, so `transfer` ends in the division, for
`len = 0` as for `len = 2`, and `bitdelay_us` has no value. -/
theorem transfer_at_frequency_zero :
    bitdelay (demoFreq 0) = .error Fault.divisionByZero ∧
    (match (demoFreq 0).transfer togglePlatform (fun _ => 0xA5) 2 [] with
      | .ok _ => none
      | .error e => some e) = some Fault.divisionByZero ∧
    (match (demoFreq 0).transfer togglePlatform (fun _ => 0xA5) 0 [] with
      | .ok _ => none
      | .error e => some e) = some Fault.divisionByZero :=
  ⟨rfl, by decide, by decide⟩

/-- C13, as stated, fails: on a handle whose chip-select control was disabled
before `begin()`, after a trace that left chip-select LOW, `begin()` writes the
chip-select pin and leaves it HIGH. -/
theorem begin_drives_cs_counterexample :
    (demoSoft SIKSPI_BITORDER_MSBFIRST SPI_MODE0).disableCsToggle._cs_control = false ∧
    pinLevel 10 none [Event.digitalWrite 10 LOW] = some false ∧
    pinLevel 10 none
      ((demoSoft SIKSPI_BITORDER_MSBFIRST SPI_MODE0).disableCsToggle.begin
        [Event.digitalWrite 10 LOW]).2.1 = some true ∧
    pinWrites 10 [Event.digitalWrite 10 LOW] = 1 ∧
    pinWrites 10
      ((demoSoft SIKSPI_BITORDER_MSBFIRST SPI_MODE0).disableCsToggle.begin
        [Event.digitalWrite 10 LOW]).2.1 = 2 := by
  decide

/-- C13, amended. `begin()` drives chip-select whatever the control flag is:
in either mode and for either value of `_cs_control` it first configures the
chip-select pin as output and writes it HIGH, and it leaves the flag as it
was; when chip-select is not the clock or data-out pin nothing later in
`begin()` writes it, so it is HIGH afterwards. -/
theorem begin_drives_cs (s : SIKTEC_SPI) (tr : List Event) (l : Option Bool)
    (hcs : s._spi = false → s._cs ≠ s._sck ∧ (s._mosi ≠ -1 → s._mosi ≠ s._cs)) :
    ∃ rest, (s.begin tr).2.1
        = tr ++ [Event.pinMode s._cs OUTPUT, Event.digitalWrite s._cs HIGH] ++ rest ∧
      pinWrites s._cs rest = 0 ∧
      pinLevel s._cs l (s.begin tr).2.1 = some true ∧
      (s.begin tr).1._cs_control = s._cs_control := by
  by_cases hs : s._spi = true
  · refine ⟨[Event.spiBegin], ?_, rfl, ?_, rfl⟩
    · simp [SIKTEC_SPI.begin, hs]
    · simp [SIKTEC_SPI.begin, hs, pinLevel, List.foldl_append, toBool, HIGH]
  · have hsw : s._spi = false := by simpa using hs
    obtain ⟨h1, h2⟩ := hcs hsw
    have h1' : s._sck ≠ s._cs := fun h => h1 h.symm
    refine ⟨beginSoftware s [], ?_, ?_, ?_, rfl⟩
    · by_cases hmosi : s._mosi = -1 <;> by_cases hmiso : s._miso = -1 <;>
      by_cases hm : s._dataMode = SPI_MODE0 ∨ s._dataMode = SPI_MODE1 <;>
      simp [SIKTEC_SPI.begin, beginSoftware, hsw, hmosi, hmiso, hm]
    · by_cases hmosi : s._mosi = -1 <;> by_cases hmiso : s._miso = -1 <;>
      by_cases hm : s._dataMode = SPI_MODE0 ∨ s._dataMode = SPI_MODE1 <;>
      simp [beginSoftware, hmosi, hmiso, hm, pinWrites, h1', h2]
    · by_cases hmosi : s._mosi = -1 <;> by_cases hmiso : s._miso = -1 <;>
      by_cases hm : s._dataMode = SPI_MODE0 ∨ s._dataMode = SPI_MODE1 <;>
      simp [SIKTEC_SPI.begin, beginSoftware, hsw, hmosi, hmiso, hm, pinLevel,
        List.foldl_append, h1', h2, toBool, HIGH]

/-- C13 amended, at a software handle whose chip-select control is disabled. -/
theorem begin_drives_cs_witness :
    ∃ rest, ((demoSoft SIKSPI_BITORDER_MSBFIRST SPI_MODE3).disableCsToggle.begin
          [Event.digitalWrite 10 LOW]).2.1
        = [Event.digitalWrite 10 LOW]
          ++ [Event.pinMode (demoSoft SIKSPI_BITORDER_MSBFIRST SPI_MODE3).disableCsToggle._cs
                OUTPUT,
              Event.digitalWrite (demoSoft SIKSPI_BITORDER_MSBFIRST SPI_MODE3).disableCsToggle._cs
                HIGH] ++ rest ∧
      pinWrites (demoSoft SIKSPI_BITORDER_MSBFIRST SPI_MODE3).disableCsToggle._cs rest = 0 ∧
      pinLevel (demoSoft SIKSPI_BITORDER_MSBFIRST SPI_MODE3).disableCsToggle._cs none
        ((demoSoft SIKSPI_BITORDER_MSBFIRST SPI_MODE3).disableCsToggle.begin
          [Event.digitalWrite 10 LOW]).2.1 = some true ∧
      ((demoSoft SIKSPI_BITORDER_MSBFIRST SPI_MODE3).disableCsToggle.begin
          [Event.digitalWrite 10 LOW]).1._cs_control
        = (demoSoft SIKSPI_BITORDER_MSBFIRST SPI_MODE3).disableCsToggle._cs_control :=
  begin_drives_cs (demoSoft SIKSPI_BITORDER_MSBFIRST SPI_MODE3).disableCsToggle
    [Event.digitalWrite 10 LOW] none (by decide)

/-- C14. In the `STM32` build `write_and_read` returns the byte it sent, not
the byte received: on the hardware handle `write_and_read(0x42)` adds
chip-select LOW, one peripheral transfer that sends `0x42` and gets 1 back,
chip-select HIGH, with no transaction event, and returns `0x42`; the generic
build adds the same events and returns 1. -/
theorem write_and_read_returns_sent_on_stm32 :
    (match demoHard.write_and_read stm32Platform 0x42 [] with
      | .ok (got, tr) => (got, tr, transactionEvents tr)
      | .error _ => (0, [], 0))
      = (0x42, [Event.digitalWrite 10 LOW, Event.spiTransfer [0x42] [1],
          Event.digitalWrite 10 HIGH], 0) ∧
    (match demoHard.write_and_read togglePlatform 0x42 [] with
      | .ok (got, tr) => (got, tr, transactionEvents tr)
      | .error _ => (0, [], 0))
      = (1, [Event.digitalWrite 10 LOW, Event.spiTransfer [0x42] [1],
          Event.digitalWrite 10 HIGH], 0) := by
  decide

/-- C16. Change detection on the data-out pin: for a software handle with a
data-out pin (not the clock pin), a positive frequency and `len >= 1`, any
platform: `transfer(buffer, len)` returns; in data mode 0 or 2 data-out is
written for a bit exactly when the bit is the first of the call or differs
from the bit before it (also across bytes), which makes 1 plus the number of
adjacent unequal pairs of the transmitted bits writes in all; in the other
data modes it is written for every bit, `8 * len` times. -/
theorem mosi_change_detection (s : SIKTEC_SPI) (P : Platform) (buffer : Nat → Nat) (len : Nat)
    (tr : List Event)
    (hsw : s._spi = false) (hfreq : 0 < s._freq) (hmosi : s._mosi ≠ -1)
    (hpin : s._sck ≠ s._mosi) (hlen : 1 ≤ len) :
    ∃ r evs, s.transfer P buffer len tr = .ok r ∧ r.trace = tr ++ evs ∧
      ((s._dataMode = SPI_MODE0 ∨ s._dataMode = SPI_MODE2) →
        driven s evs = edges none (bitsOfBytes s ((List.range len).map buffer)) ∧
        pinWrites s._mosi evs
          = 1 + unequalPairs (bitsOfBytes s ((List.range len).map buffer))) ∧
      (¬(s._dataMode = SPI_MODE0 ∨ s._dataMode = SPI_MODE2) →
        driven s evs = List.replicate (8 * len) true ∧
        pinWrites s._mosi evs = 8 * len) := by
  obtain ⟨r, evs, lm', h1, h2, h3⟩ := transfer_run s P buffer len tr hsw hfreq
  have hdr : driven s evs
      = writtenBits s (!(toBool (buffer 0 &&& startbit s)))
          (pairsOf s ((List.range len).map buffer)) := by
    have := driveFrom_run s _ hpin _ _ _ _ h3 []
    unfold driven
    change (driveFrom s ⟨false, []⟩ evs).marks = _
    rw [this]
    rfl
  have hpw := pinWrites_mosi_run s _ hmosi hpin _ _ _ _ h3
  obtain ⟨n, hn⟩ : ∃ n, len = n + 1 := ⟨len - 1, by omega⟩
  obtain ⟨ms, hms⟩ := masks_cons s
  have hbits : bitsOfBytes s ((List.range len).map buffer)
      = toBool (buffer 0 &&& startbit s)
          :: (bitsOfBytes s ((List.range len).map buffer)).tail := by
    rw [hn, List.range_succ_eq_map, List.map_cons, bitsOfBytes_cons, bitsOf, hms]
    rfl
  refine ⟨r, evs, h1, h2, ?_, ?_⟩
  · intro hm
    have hw := writtenBits_mode02 s hmosi hm (pairsOf s ((List.range len).map buffer))
      (!(toBool (buffer 0 &&& startbit s)))
    rw [pairsOf_bits] at hw
    have he : edges (some (!(toBool (buffer 0 &&& startbit s))))
          (bitsOfBytes s ((List.range len).map buffer))
        = edges none (bitsOfBytes s ((List.range len).map buffer)) := by
      rw [hbits]
      exact edges_first _ _
    refine ⟨by rw [hdr, hw, he], ?_⟩
    rw [hpw, hw, he, hbits]
    exact edges_none_count _ _
  · intro hm
    have hw := writtenBits_mode13 s hmosi hm (pairsOf s ((List.range len).map buffer))
      (!(toBool (buffer 0 &&& startbit s)))
    rw [pairsOf_length, List.length_map, List.length_range] at hw
    refine ⟨by rw [hdr, hw], ?_⟩
    rw [hpw, hw]
    simp

/-- C16 at mode 2, MSB first: the bytes `0xF0, 0x0F` send the bits
1111 0000 0000 1111, and data-out is written for the first bit and at the two
changes. -/
theorem mosi_change_detection_witness :
    ∃ r evs, (demoSoft SIKSPI_BITORDER_MSBFIRST SPI_MODE2).transfer togglePlatform
        (fun j => if j = 0 then 0xF0 else 0x0F) 2 [] = .ok r ∧ r.trace = [] ++ evs ∧
      (((demoSoft SIKSPI_BITORDER_MSBFIRST SPI_MODE2)._dataMode = SPI_MODE0 ∨
          (demoSoft SIKSPI_BITORDER_MSBFIRST SPI_MODE2)._dataMode = SPI_MODE2) →
        driven (demoSoft SIKSPI_BITORDER_MSBFIRST SPI_MODE2) evs
          = edges none (bitsOfBytes (demoSoft SIKSPI_BITORDER_MSBFIRST SPI_MODE2)
              ((List.range 2).map (fun j => if j = 0 then 0xF0 else 0x0F))) ∧
        pinWrites (demoSoft SIKSPI_BITORDER_MSBFIRST SPI_MODE2)._mosi evs
          = 1 + unequalPairs (bitsOfBytes (demoSoft SIKSPI_BITORDER_MSBFIRST SPI_MODE2)
              ((List.range 2).map (fun j => if j = 0 then 0xF0 else 0x0F)))) ∧
      (¬((demoSoft SIKSPI_BITORDER_MSBFIRST SPI_MODE2)._dataMode = SPI_MODE0 ∨
          (demoSoft SIKSPI_BITORDER_MSBFIRST SPI_MODE2)._dataMode = SPI_MODE2) →
        driven (demoSoft SIKSPI_BITORDER_MSBFIRST SPI_MODE2) evs = List.replicate (8 * 2) true ∧
        pinWrites (demoSoft SIKSPI_BITORDER_MSBFIRST SPI_MODE2)._mosi evs = 8 * 2) :=
  mosi_change_detection (demoSoft SIKSPI_BITORDER_MSBFIRST SPI_MODE2) togglePlatform
    (fun j => if j = 0 then 0xF0 else 0x0F) 2 [] rfl (by decide) (by decide) (by decide)
    (by decide)

/-- C17. With `len = 0` the software transfer still reads `buffer[0]`: line
161 takes `lastmosi` from `buffer[0]` before the loop tests `len`, so
`transfer(buffer, 0)`, also as reached through `read(buffer, 0)`, accesses
index 0, which is not below `len`. -/
theorem transfer_reads_first_byte_at_len_zero :
    (match (demoSoft SIKSPI_BITORDER_MSBFIRST SPI_MODE0).transfer togglePlatform
        (fun _ => 0) 0 [] with
      | .ok r => r.accesses
      | .error _ => []) = [Access.load 0] ∧
    (match (demoSoft SIKSPI_BITORDER_MSBFIRST SPI_MODE0).read togglePlatform
        (fun _ => 0) 0 0xFF [] with
      | .ok (r, _) => r.accesses
      | .error _ => []) = [Access.load 0] := by
  decide

/-- C18. Clock level after a transfer: for a software handle with a positive
frequency, every data mode, either bit order and `len >= 1`, any platform:
`transfer(buffer, len)` returns and its last write of the clock pin is LOW, so
the clock is LOW afterwards; in data mode 2 or 3 `begin()` had left it HIGH, and
a transfer after `begin()` leaves it LOW; and (chip-select not being the clock
pin) `write`, `read`, `repeated` and `write_then_read` that send at least one
byte return with the clock still LOW. -/
theorem clock_low_after_transfer (s : SIKTEC_SPI) (P : Platform) (buffer : Nat → Nat)
    (len : Nat) (prefix_buffer : Nat → Nat) (prefix_len : Nat) (invertBuffer : Bool)
    (sendvalue value times : Nat) (mem : Nat → Nat)
    (write_buffer write_len read_buffer read_len : Nat) (tr : List Event) (l : Option Bool)
    (hsw : s._spi = false) (hfreq : 0 < s._freq) (hcs : s._cs ≠ s._sck)
    (hlen : 1 ≤ len) (htimes : 1 ≤ prefix_len + times) (hwr : 1 ≤ write_len + read_len) :
    (∃ r evs, s.transfer P buffer len tr = .ok r ∧ r.trace = tr ++ evs ∧
      (∀ before : Option Bool, pinLevel s._sck before evs = some false) ∧
      pinLevel s._sck l r.trace = some false) ∧
    ((s._dataMode = SPI_MODE2 ∨ s._dataMode = SPI_MODE3) →
      pinLevel s._sck l (s.begin tr).2.1 = some true ∧
      ∃ r, (s.begin tr).1.transfer P buffer len (s.begin tr).2.1 = .ok r ∧
        pinLevel s._sck l r.trace = some false) ∧
    (∃ evs, s.write P buffer len prefix_buffer prefix_len invertBuffer tr
        = .ok (true, tr ++ evs) ∧ pinLevel s._sck l (tr ++ evs) = some false) ∧
    (∃ r, s.read P buffer len sendvalue tr = .ok (r, true) ∧
      pinLevel s._sck l r.trace = some false) ∧
    (∃ evs, s.repeated P value times prefix_buffer prefix_len tr = .ok (true, tr ++ evs) ∧
      pinLevel s._sck l (tr ++ evs) = some false) ∧
    (∃ mem' evs,
      s.write_then_read P mem write_buffer write_len read_buffer read_len sendvalue tr
        = .ok (mem', tr ++ evs, true) ∧ pinLevel s._sck l (tr ++ evs) = some false) := by
  have hlow : ∀ (n : Nat) (evs t : List Event), 1 ≤ n → ClockAfter s n evs →
      pinLevel s._sck l (t ++ evs) = some false := by
    intro n evs t hn h
    rw [pinLevel_append, h, if_neg (by omega)]
  obtain ⟨o1, o2, o3, o4⟩ := operations_clock s P buffer len prefix_buffer prefix_len
    invertBuffer sendvalue value times mem write_buffer write_len read_buffer read_len tr
    hsw hfreq hcs
  refine ⟨?_, ?_, ?_, ?_, ?_, ?_⟩
  · obtain ⟨r, evs, h1, h2, h3⟩ := transfer_clock s P buffer len tr hsw hfreq
    refine ⟨r, evs, h1, h2, ?_, ?_⟩
    · intro before
      rw [h3, if_neg (by omega)]
    · rw [h2]
      exact hlow len evs tr hlen h3
  · intro hm
    have hm' : ¬(s._dataMode = SPI_MODE0 ∨ s._dataMode = SPI_MODE1) := by
      simp only [SPI_MODE0, SPI_MODE1, SPI_MODE2, SPI_MODE3] at hm ⊢
      omega
    have hcs' : s._sck ≠ s._cs := fun h => hcs h.symm
    refine ⟨?_, ?_⟩
    · by_cases h3 : s._mosi = s._sck
      · by_cases h1 : s._sck = -1 <;> by_cases h2 : s._miso = -1 <;>
        simp [SIKTEC_SPI.begin, beginSoftware, hsw, h1, h2, h3, hm', pinLevel,
          List.foldl_append, toBool, HIGH, hcs]
      · by_cases h1 : s._mosi = -1 <;> by_cases h2 : s._miso = -1 <;>
        simp [SIKTEC_SPI.begin, beginSoftware, hsw, h1, h2, h3, hm', pinLevel,
          List.foldl_append, toBool, HIGH, hcs]
    · obtain ⟨r, evs, h1, h2, h3⟩ :=
        transfer_clock (s.begin tr).1 P buffer len (s.begin tr).2.1 hsw hfreq
      refine ⟨r, h1, ?_⟩
      rw [h2]
      exact hlow len evs _ hlen h3
  · obtain ⟨evs, h1, h2⟩ := o1
    exact ⟨evs, h1, hlow _ evs tr (by omega) h2⟩
  · obtain ⟨r, evs, h1, h2, h3⟩ := o2
    refine ⟨r, h1, ?_⟩
    rw [h2]
    exact hlow _ evs tr hlen h3
  · obtain ⟨evs, h1, h2⟩ := o3
    exact ⟨evs, h1, hlow _ evs tr htimes h2⟩
  · obtain ⟨mem', evs, h1, h2⟩ := o4
    exact ⟨mem', evs, h1, hlow _ evs tr hwr h2⟩

/-- C18 at a software handle in data mode 3, LSB first, two bytes. -/
theorem clock_low_after_transfer_witness :
    (∃ r evs, (demoSoft SIKSPI_BITORDER_LSBFIRST SPI_MODE3).transfer togglePlatform
        (fun j => j) 2 [] = .ok r ∧ r.trace = [] ++ evs ∧
      (∀ before : Option Bool,
        pinLevel (demoSoft SIKSPI_BITORDER_LSBFIRST SPI_MODE3)._sck before evs = some false) ∧
      pinLevel (demoSoft SIKSPI_BITORDER_LSBFIRST SPI_MODE3)._sck none r.trace = some false) ∧
    (((demoSoft SIKSPI_BITORDER_LSBFIRST SPI_MODE3)._dataMode = SPI_MODE2 ∨
        (demoSoft SIKSPI_BITORDER_LSBFIRST SPI_MODE3)._dataMode = SPI_MODE3) →
      pinLevel (demoSoft SIKSPI_BITORDER_LSBFIRST SPI_MODE3)._sck none
        ((demoSoft SIKSPI_BITORDER_LSBFIRST SPI_MODE3).begin []).2.1 = some true ∧
      ∃ r, ((demoSoft SIKSPI_BITORDER_LSBFIRST SPI_MODE3).begin []).1.transfer togglePlatform
          (fun j => j) 2 ((demoSoft SIKSPI_BITORDER_LSBFIRST SPI_MODE3).begin []).2.1 = .ok r ∧
        pinLevel (demoSoft SIKSPI_BITORDER_LSBFIRST SPI_MODE3)._sck none r.trace = some false) ∧
    (∃ evs, (demoSoft SIKSPI_BITORDER_LSBFIRST SPI_MODE3).write togglePlatform (fun j => j) 2
        (fun j => j) 1 false [] = .ok (true, [] ++ evs) ∧
      pinLevel (demoSoft SIKSPI_BITORDER_LSBFIRST SPI_MODE3)._sck none ([] ++ evs)
        = some false) ∧
    (∃ r, (demoSoft SIKSPI_BITORDER_LSBFIRST SPI_MODE3).read togglePlatform (fun j => j) 2
        0xFF [] = .ok (r, true) ∧
      pinLevel (demoSoft SIKSPI_BITORDER_LSBFIRST SPI_MODE3)._sck none r.trace = some false) ∧
    (∃ evs, (demoSoft SIKSPI_BITORDER_LSBFIRST SPI_MODE3).repeated togglePlatform 7 5
        (fun j => j) 1 [] = .ok (true, [] ++ evs) ∧
      pinLevel (demoSoft SIKSPI_BITORDER_LSBFIRST SPI_MODE3)._sck none ([] ++ evs)
        = some false) ∧
    (∃ mem' evs,
      (demoSoft SIKSPI_BITORDER_LSBFIRST SPI_MODE3).write_then_read togglePlatform
        (fun j => j) 0 3 8 2 0xFF [] = .ok (mem', [] ++ evs, true) ∧
      pinLevel (demoSoft SIKSPI_BITORDER_LSBFIRST SPI_MODE3)._sck none ([] ++ evs)
        = some false) :=
  clock_low_after_transfer (demoSoft SIKSPI_BITORDER_LSBFIRST SPI_MODE3) togglePlatform
    (fun j => j) 2 (fun j => j) 1 false 0xFF 7 5 (fun j => j) 0 3 8 2 [] none
    rfl (by decide) (by decide) (by decide) (by decide) (by decide)

end SIKTEC
